import Mathlib

/-!
# MySQL source connector: embedding of `internal/plugin/source.go`

The connector is a small state machine (`Init`, `ReadBatch`, `Close`) around a
database handle, a ticker and one integer, `offset`.  The Go code talks to
three libraries (`database/sql`, `encoding/json`, `time`).  The answers of the
database and of the clock (what the `select` finds ready) are explicit
arguments of the embedded functions, and every external call the code makes is
recorded in a list of `Effect`s, so that "no query was executed" is a statement
about a value.  `json.Marshal` is an argument of `rowsToRecords` and
`ReadBatch`, and is embedded as `jsonMarshal` for the statements about the
payload; `time.ParseDuration` and `time.NewTicker` are embedded as well.

* Go `int` and `time.Duration` are modelled by `Int`.  `offset` only ever grows
  by `len(records)`, the number of records held in memory by one call, so the
  64-bit range is never left and no wrap-around is modelled.
* Go `string` values that come out of `json.Unmarshal` are valid UTF-8 and are
  modelled by `String`; raw byte sequences (`[]byte`, and the text made from
  them by `string(b)`) are modelled by `List UInt8`.
-/

namespace MySQLSource

/-! ## Data model -/

/-- Byte sequences: Go `[]byte`, and Go `string` seen as its bytes. -/
abbrev Bytes := List UInt8

/-- Go `error` values met by the connector. -/
inductive Error where
  /-- The sentinel `io.EOF`. -/
  | EOF
  /-- An error value handed back by a library (driver, encoder, decoder). -/
  | lib (text : String)
  /-- The value of `fmt.Errorf(text)`. -/
  | errorf (text : String)
  /-- The value of `fmt.Errorf(text + ": %w", cause)`. -/
  | wrap (text : String) (cause : Error)
  deriving DecidableEq, Repr

/-- What a Go call does: it returns, or it panics. -/
inductive Outcome (α : Type) where
  | panicked (msg : String)
  | ret (a : α)
  deriving DecidableEq, Repr

/-- The `Config` struct, lines 21-27. -/
structure Config where
  DSN : String := ""
  Table : String := ""
  Query : String := ""
  BatchSize : Int := 0
  PollInterval : String := ""
  deriving DecidableEq, Repr

/-- The members of a JSON configuration object that `json.Unmarshal` stores into
`Config`; `none` is a member that is absent (or `null`), which leaves the field
as it was. -/
structure ConfigDoc where
  dsn : Option String := none
  table : Option String := none
  query : Option String := none
  batch_size : Option Int := none
  poll_interval : Option String := none
  deriving DecidableEq, Repr

/-- What `json.Unmarshal(config, &s.cfg)` does with the raw configuration: the
members it stores and the error it returns, if any.  A document that is not
valid JSON stores nothing; a document with a member of the wrong type stores
the other members and still returns an error. -/
structure Decoded where
  stored : ConfigDoc := {}
  err : Option Error := none
  deriving DecidableEq, Repr

/-- A `*sql.DB` handle. -/
structure DB where
  dsn : String
  deriving DecidableEq, Repr

/-- A `*time.Ticker`, known by its interval in nanoseconds. -/
structure Ticker where
  interval : Int
  deriving DecidableEq, Repr

/-- The `MySQLSourceSPI` struct, lines 31-36; `none` is a nil pointer. -/
structure MySQLSourceSPI where
  db : Option DB := none
  cfg : Config := {}
  offset : Int := 0
  ticker : Option Ticker := none
  deriving DecidableEq, Repr

/-- The connector made by the factory of `NewMySQLSourceFactory`:
`&MySQLSourceSPI{}`, the zero value. -/
def NewMySQLSource : MySQLSourceSPI := {}

/-- The external calls of the connector, in the order they are made. -/
inductive Effect where
  | sqlOpen (dsn : String)
  | pingContext
  | dbClose
  | newTicker (d : Int)
  | tickerStop
  | queryContext (text : String)
  | rowsClose
  deriving DecidableEq, Repr

/-- The dynamic values a driver hands to `Scan` for an `interface{}`
destination (`driver.Value`): nil, int64, float64 (kept as its bit pattern),
bool, `[]byte`, string and `time.Time` (kept as nanoseconds). -/
inductive Value where
  | null
  | int (n : Int)
  | float (bits : Nat)
  | bool (b : Bool)
  | bytes (b : Bytes)
  | str (s : Bytes)
  | time (unixNano : Int)
  deriving DecidableEq, Repr

/-- A Go `map[string]interface{}` as an association list with unique keys. -/
abbrev RowMap := List (String × Value)

/-- The Go assignment `m[k] = v`: replaces the value of an existing key, adds the
key otherwise. -/
def mapSet (m : RowMap) (k : String) (v : Value) : RowMap :=
  match m with
  | [] => [(k, v)]
  | (k0, v0) :: t => if k0 = k then (k, v) :: t else (k0, v0) :: mapSet t k v

/-- The Go lookup `m[k]`. -/
def mapGet (m : RowMap) (k : String) : Option Value :=
  match m with
  | [] => none
  | (k0, v0) :: t => if k0 = k then some v0 else mapGet t k

/-- A `batch.Record`: metadata tags and a payload of type `P`. -/
structure Record (P : Type) where
  Metadata : List (String × String)
  Payload : P
  deriving DecidableEq, Repr

/-- A `batch.Batch`; `Batch{}` has no records and no context. -/
structure Batch (P : Type) where
  Records : List (Record P) := []
  Context : List (String × String) := []
  deriving DecidableEq, Repr

/-- A `*sql.Rows` result set as the code observes it: the answer of `Columns()`,
for each `Next()` that returns true the answer of `Scan` into `interface{}`
destinations, and the answer of `Err()` once `Next()` has returned false. -/
structure Rows where
  columns : Except Error (List String)
  scans : List (Except Error (List Value))
  err : Option Error := none

/-! ## Row conversion, lines 141-185 -/

/-- Lines 163-167: a `[]byte` value is stored as `string(b)`, any other value as
it is. -/
def normalize (val : Value) : Value :=
  match val with
  | .bytes b => .str b
  | v => v

/-- The loop of lines 161-168 from column index `i` on, `values` being the
slice of `len(columns)` values, all nil before `Scan` fills them. -/
def fillRowMap (values : List Value) : Nat → List String → RowMap → RowMap
  | _, [], m => m
  | i, col :: cols, m =>
      fillRowMap values (i + 1) cols (mapSet m col (normalize (values.getD i Value.null)))

/-- Lines 160-168: the `rowMap` built for one scanned row. -/
def rowToMap (columns : List String) (values : List Value) : RowMap :=
  fillRowMap values 0 columns []

/-- Lines 175-181: the record made for one row. -/
def mkRecord {P : Type} (table : String) (payload : P) : Record P :=
  { Metadata := [("source", "mysql"), ("table", table)], Payload := payload }

/-- The loop of lines 149-182 and the return of line 184, `records` being the
records appended so far: a failing `Scan` or `json.Marshal` returns
`nil, err`; when `Next()` is exhausted the records are returned with
`rows.Err()`. -/
def convertLoop {P : Type} (marshal : RowMap → Except Error P) (table : String)
    (columns : List String) (rowsErr : Option Error) :
    List (Except Error (List Value)) → List (Record P) → List (Record P) × Option Error
  | [], records => (records, rowsErr)
  | .error e :: _, _ => ([], some e)
  | .ok values :: rest, records =>
      match marshal (rowToMap columns values) with
      | .error e => ([], some e)
      | .ok payload =>
          convertLoop marshal table columns rowsErr rest (records ++ [mkRecord table payload])

/-- The function `rowsToRecords`, lines 142-185; `marshal` is `json.Marshal` on
the row map. -/
def rowsToRecords {P : Type} (marshal : RowMap → Except Error P) (rows : Rows)
    (table : String) : List (Record P) × Option Error :=
  match rows.columns with
  | .error e => ([], some e)
  | .ok columns => convertLoop marshal table columns rows.err rows.scans []

/-! ## ReadBatch, lines 86-127 -/

/-- Which case of the `select` of lines 88-92 is taken. -/
inductive Select where
  /-- The case `<-ctx.Done()`: the context is cancelled and no tick is taken. -/
  | cancelled
  /-- The case `<-s.ticker.C`. -/
  | ticked
  deriving DecidableEq, Repr

/-- What the `select` of lines 88-92 finds ready when it stops waiting.  A
`select` that blocks is woken by the first of the two events and finds that one
ready alone; a `select` reached after both events finds both cases ready, and
the Go runtime then takes one of them by a uniform pseudo-random choice. -/
inductive Wait where
  /-- Only `ctx.Done()` is ready: the context is cancelled and no tick is pending. -/
  | done
  /-- Only `s.ticker.C` is ready: a tick is pending and the context is not cancelled. -/
  | tick
  /-- Both are ready: the context is cancelled and a tick is pending; `pick` is
  the case the runtime chooses. -/
  | both (pick : Select)
  deriving DecidableEq, Repr

/-- The case the `select` of lines 88-92 takes. -/
def selectCase : Wait → Select
  | .done => .cancelled
  | .tick => .ticked
  | .both pick => pick

/-- Lines 95-98: the query text before pagination. -/
def resolveQuery (cfg : Config) : String :=
  if cfg.Query = "" then "SELECT * FROM " ++ cfg.Table else cfg.Query

/-- Line 99: `fmt.Sprintf("%s LIMIT %d OFFSET %d", query, BatchSize, offset)`. -/
def paginatedQuery (cfg : Config) (offset : Int) : String :=
  resolveQuery cfg ++ " LIMIT " ++ toString cfg.BatchSize ++ " OFFSET " ++ toString offset

/-- What one call of `ReadBatch` leaves behind: the connector, the returned
batch and error, and the external calls made. -/
structure ReadResult (P : Type) where
  state : MySQLSourceSPI
  batch : Batch P
  err : Option Error
  effects : List Effect

/-- The method `ReadBatch`, lines 86-127.  `w` is what the `select` finds ready,
`query` is `s.db.QueryContext(ctx, ·)` and `marshal` is `json.Marshal`.  A nil
ticker or a nil connection is a nil dereference. -/
def ReadBatch {P : Type} (marshal : RowMap → Except Error P)
    (query : String → Except Error Rows) (s : MySQLSourceSPI) (w : Wait) :
    Outcome (ReadResult P) :=
  match s.ticker with
  | none => .panicked "nil pointer dereference"
  | some _ =>
    match selectCase w with
    | .cancelled => .ret { state := s, batch := {}, err := some Error.EOF, effects := [] }
    | .ticked =>
      match s.db with
      | none => .panicked "nil pointer dereference"
      | some _ =>
        let text := paginatedQuery s.cfg s.offset
        match query text with
        | .error e =>
            .ret { state := s, batch := {}, err := some (Error.wrap "query failed" e),
                   effects := [Effect.queryContext text] }
        | .ok rows =>
          match rowsToRecords marshal rows s.cfg.Table with
          | (_, some e) =>
              .ret { state := s, batch := {}, err := some e,
                     effects := [Effect.queryContext text, Effect.rowsClose] }
          | (records, none) =>
            if records.length = 0 then
              .ret { state := { s with offset := 0 }, batch := {}, err := none,
                     effects := [Effect.queryContext text, Effect.rowsClose] }
            else
              .ret { state := { s with offset := s.offset + records.length },
                     batch := { Records := records, Context := [("table", s.cfg.Table)] },
                     err := none,
                     effects := [Effect.queryContext text, Effect.rowsClose] }

/-! ## The standard library's `time.ParseDuration` and `time.NewTicker` -/

/-- The byte test `'0' <= c && c <= '9'`. -/
def isDigit (c : Char) : Bool := decide ('0' ≤ c) && decide (c ≤ '9')

/-- The table `unitMap` of package `time`, in nanoseconds per unit; the two
spellings of the micro sign are U+00B5 and U+03BC. -/
def unitMap (u : List Char) : Option Nat :=
  if u = ['n', 's'] then some 1
  else if u = ['u', 's'] then some 1000
  else if u = [Char.ofNat 0xB5, 's'] then some 1000
  else if u = [Char.ofNat 0x3BC, 's'] then some 1000
  else if u = ['m', 's'] then some 1000000
  else if u = ['s'] then some 1000000000
  else if u = ['m'] then some 60000000000
  else if u = ['h'] then some 3600000000000
  else none

/-- The helper `leadingInt` of package `time`: the leading digits of `s` as a
number, `none` on overflow past `1<<63`. -/
def leadingInt : List Char → Nat → Option (Nat × List Char)
  | [], x => some (x, [])
  | c :: cs, x =>
      if isDigit c then
        if x > 2 ^ 63 / 10 then none
        else
          let y := x * 10 + (c.toNat - 48)
          if y > 2 ^ 63 then none else leadingInt cs y
      else some (x, c :: cs)

/-- The helper `leadingFraction` of package `time`: the leading digits of `s` as
a number and its scale (a power of ten); digits past the overflow point are
skipped. -/
def leadingFraction : List Char → Nat → Nat → Bool → Nat × Nat × List Char
  | [], x, scale, _ => (x, scale, [])
  | c :: cs, x, scale, overflow =>
      if isDigit c then
        if overflow then leadingFraction cs x scale true
        else if x > (2 ^ 63 - 1) / 10 then leadingFraction cs x scale true
        else
          let y := x * 10 + (c.toNat - 48)
          if y > 2 ^ 63 then leadingFraction cs x scale true
          else leadingFraction cs y (scale * 10) false
      else (x, scale, c :: cs)

/-- The step `(\.[0-9]*)?` of `time.ParseDuration` on what follows the integer
part: the fraction digits as a number, their scale, the rest of the text, and
whether a digit was consumed after the period. -/
def fractionPart (s1 : List Char) : Nat × Nat × List Char × Bool :=
  match s1 with
  | '.' :: t =>
      let r := leadingFraction t 0 1 false
      (r.1, r.2.1, r.2.2, t.length != r.2.2.length)
  | _ => (0, 1, s1, false)

/-- The number of halvings that bring `n` below 2, the floor of its binary
logarithm; `fuel` at least `n` is enough. -/
def log2Fuel : Nat → Nat → Nat
  | 0, _ => 0
  | fuel + 1, n => if 2 ≤ n then log2Fuel fuel (n / 2) + 1 else 0

/-- The `float64` nearest to the positive rational `n / d` (IEEE 754 binary64,
round to nearest, ties to even), as a fraction whose denominator is a power of
two.  The quotient is scaled by a power of two into `[2^52, 2^53)` and rounded
to an integer there; this is the `float64` for every value in the normal
range, which holds all the values `time.ParseDuration` computes. -/
def roundFloat64 (n d : Nat) : Nat × Nat :=
  if n = 0 then (0, 1)
  else
    let lg : Int := (log2Fuel n n : Int) - (log2Fuel d d : Int)
    let s0 : Int := 52 - lg
    let num0 := if 0 ≤ s0 then n * 2 ^ s0.toNat else n
    let den0 := if 0 ≤ s0 then d else d * 2 ^ (-s0).toNat
    let s : Int := if num0 / den0 < 2 ^ 52 then s0 + 1 else s0
    let num := if 0 ≤ s then n * 2 ^ s.toNat else n
    let den := if 0 ≤ s then d else d * 2 ^ (-s).toNat
    let q := num / den
    let r := num % den
    let m := if den < 2 * r ∨ (2 * r = den ∧ q % 2 = 1) then q + 1 else q
    if 0 ≤ s then (m, 2 ^ s.toNat) else (m * 2 ^ (-s).toNat, 1)

/-- The floating-point term `uint64(float64(f) * (float64(unit) / scale))` of
`time.ParseDuration`: `f` is converted, `unit` (below `2^53`) is divided by
`scale` (a power of ten up to `10^19`, exact as a `float64`), the two are
multiplied, each step rounding to `float64`, and the product is truncated. -/
def fracNanos (f unit scale : Nat) : Nat :=
  let a := roundFloat64 f 1
  let b := roundFloat64 unit scale
  let c := roundFloat64 (a.1 * b.1) (a.2 * b.2)
  c.1 / c.2

/-- The arithmetic of one term of `time.ParseDuration` in `uint64`: `v` units and
the fraction `f / scale` of a unit are added to the sum `d`; `none` is an
overflow error. -/
def addTerm (v f scale unit d : Nat) : Option Nat :=
  if v > 2 ^ 63 / unit then none
  else
    let v1 := v * unit
    let v2 := if f > 0 then (v1 + fracNanos f unit scale) % 2 ^ 64 else v1
    if f > 0 && v2 > 2 ^ 63 then none
    else
      let d1 := (d + v2) % 2 ^ 64
      if d1 > 2 ^ 63 then none else some d1

/-- The body of the loop `for s != ""` of `time.ParseDuration` on a non-empty
`s`: one term `[0-9]*(\.[0-9]*)?[a-z]+` is consumed and added to the sum `d`;
the result is the rest of the text and the new sum, `none` a returned error. -/
def parseTerm (s : List Char) (d : Nat) :
    Option (List Char × Nat) :=
  match s with
  | [] => none
  | c :: _ =>
    if !(c = '.' || isDigit c) then none
    else
      match leadingInt s 0 with
      | none => none
      | some (v, s1) =>
        let fr := fractionPart s1
        if !(s.length != s1.length) && !fr.2.2.2 then none
        else
          let us := fr.2.2.1.span (fun c => !(c = '.' || isDigit c))
          if us.1 = [] then none
          else
            match unitMap us.1 with
            | none => none
            | some unit =>
              match addTerm v fr.1 fr.2.1 unit d with
              | none => none
              | some d1 => some (us.2, d1)

/-- The loop `for s != ""` of `time.ParseDuration`, `d` being the unsigned sum
so far.  Each round consumes at least one character, so `fuel` at least the
length of `s` is never used up (`parseLoop_fuel`). -/
def parseLoop : Nat → List Char → Nat → Option Nat
  | 0, s, d => if s = [] then some d else none
  | fuel + 1, s, d =>
      if s = [] then some d
      else
        match parseTerm s d with
        | none => none
        | some (rest, d1) => parseLoop fuel rest d1

/-- The function `time.ParseDuration` of the Go standard library, in
nanoseconds; `none` is a returned error. -/
def ParseDuration (text : String) : Option Int :=
  let orig := text.data
  let neg := orig.head? = some '-'
  let s := if orig.head? = some '-' || orig.head? = some '+' then orig.tail else orig
  if s = ['0'] then some 0
  else if s = [] then none
  else
    match parseLoop s.length s 0 with
    | none => none
    | some d =>
      if neg then some (-(d : Int))
      else if d > 2 ^ 63 - 1 then none
      else some (d : Int)

/-- The function `time.NewTicker` of the Go standard library: it panics unless
the interval is greater than zero. -/
def NewTicker (d : Int) : Outcome Ticker :=
  if d ≤ 0 then .panicked "non-positive interval for NewTicker" else .ret { interval := d }

/-- The constant `time.Second`, in nanoseconds. -/
def Second : Int := 1000000000

/-! ## The standard library's `json.Marshal` on a row map

The payload of a record is the JSON text `json.Marshal` writes for the row map,
an object.  It is kept here as the document that text denotes: the members in
the order they are written, a string as the text it stands for.  The escapes of
the text syntax and the spelling of numbers are not modelled. -/

/-- The tables `first` and `acceptRanges` of package `unicode/utf8`: for the
leading byte of a multi-byte sequence, the length of the sequence and the
bounds of its second byte; `none` for a byte that cannot lead one. -/
def leadByte (b0 : UInt8) : Option (Nat × UInt8 × UInt8) :=
  if 0xC2 ≤ b0 ∧ b0 ≤ 0xDF then some (2, 0x80, 0xBF)
  else if b0 = 0xE0 then some (3, 0xA0, 0xBF)
  else if 0xE1 ≤ b0 ∧ b0 ≤ 0xEC then some (3, 0x80, 0xBF)
  else if b0 = 0xED then some (3, 0x80, 0x9F)
  else if 0xEE ≤ b0 ∧ b0 ≤ 0xEF then some (3, 0x80, 0xBF)
  else if b0 = 0xF0 then some (4, 0x90, 0xBF)
  else if 0xF1 ≤ b0 ∧ b0 ≤ 0xF3 then some (4, 0x80, 0xBF)
  else if b0 = 0xF4 then some (4, 0x80, 0x8F)
  else none

/-- A continuation byte, `0x80 .. 0xBF`. -/
def isCont (b : UInt8) : Bool := decide (0x80 ≤ b) && decide (b ≤ 0xBF)

/-- The function `utf8.DecodeRune` on the bytes `b0 :: rest`, as far as the
encoder needs it: the width of the rune when the bytes start with a valid
encoding, `none` when they decode as `RuneError` of width 1. -/
def runeLen (b0 : UInt8) (rest : Bytes) : Option Nat :=
  if b0 < 0x80 then some 1
  else
    match leadByte b0 with
    | none => none
    | some (size, lo, hi) =>
      match rest with
      | [] => none
      | b1 :: rest1 =>
        if b1 < lo ∨ hi < b1 then none
        else if size ≤ 2 then some 2
        else
          match rest1 with
          | [] => none
          | b2 :: rest2 =>
            if !isCont b2 then none
            else if size ≤ 3 then some 3
            else
              match rest2 with
              | [] => none
              | b3 :: _ => if !isCont b3 then none else some 4

/-- The text a Go string is written as by the JSON encoder: rune by rune, a
valid encoding is kept and an invalid byte becomes U+FFFD (`EF BF BD`).  `skip`
counts the bytes still to copy of the rune being kept. -/
def coerceFrom : Nat → Bytes → Bytes
  | _, [] => []
  | skip + 1, b :: t => b :: coerceFrom skip t
  | 0, b :: t =>
      match runeLen b t with
      | some n => b :: coerceFrom (n - 1) t
      | none => 0xEF :: 0xBF :: 0xBD :: coerceFrom 0 t

/-- A Go string "coerced to valid UTF-8, replacing invalid bytes with the
Unicode replacement rune", as `json.Marshal` documents it. -/
def toValidUTF8 (s : Bytes) : Bytes := coerceFrom 0 s

/-- The check of `utf8.Valid` from a position inside a rune, see `coerceFrom`. -/
def validFrom : Nat → Bytes → Bool
  | _, [] => true
  | skip + 1, _ :: t => validFrom skip t
  | 0, b :: t =>
      match runeLen b t with
      | some n => validFrom (n - 1) t
      | none => false

/-- The function `utf8.Valid`: every rune of `s` is a valid encoding. -/
def validUTF8 (s : Bytes) : Bool := validFrom 0 s

/-- The JSON values `json.Marshal` writes for the values of a row map. -/
inductive JSONValue where
  /-- The literal `null`. -/
  | null
  /-- The literals `true` and `false`. -/
  | bool (b : Bool)
  /-- The number of an int64. -/
  | int (n : Int)
  /-- The number of a finite float64, by its bit pattern. -/
  | float (bits : Nat)
  /-- The string standing for `text`. -/
  | str (text : Bytes)
  /-- The string holding the base64 text of `data`, written for a `[]byte`. -/
  | base64 (data : Bytes)
  /-- The string holding the RFC 3339 text of a `time.Time`. -/
  | time (unixNano : Int)
  deriving DecidableEq, Repr

/-- A JSON object: its members in the order they are written. -/
abbrev JSONObject := List (String × JSONValue)

/-- The member of an object under a name. -/
def jsonGet (obj : JSONObject) (k : String) : Option JSONValue :=
  match obj with
  | [] => none
  | (k0, v0) :: t => if k0 = k then some v0 else jsonGet t k

/-- The encoding of one value of a row map by `json.Marshal`.  A float that is
NaN or infinite (exponent bits all set) is an `UnsupportedValueError`; a string
is coerced to valid UTF-8.  A MySQL date has a year in 0..9999, for which
`Time.MarshalJSON` does not fail. -/
def jsonValue : Value → Except Error JSONValue
  | .null => .ok .null
  | .int n => .ok (.int n)
  | .float bits =>
      if bits / 2 ^ 52 % 2048 = 2047 then .error (Error.lib "json: unsupported value")
      else .ok (.float bits)
  | .bool b => .ok (.bool b)
  | .bytes b => .ok (.base64 b)
  | .str s => .ok (.str (toValidUTF8 s))
  | .time t => .ok (.time t)

/-- The comparison `a < b` of Go strings on their characters.  Go compares byte
by byte, which on valid UTF-8 is the order of the code points. -/
def ltChars : List Char → List Char → Bool
  | [], [] => false
  | [], _ :: _ => true
  | _ :: _, [] => false
  | a :: as, b :: bs =>
      if a.toNat < b.toNat then true
      else if b.toNat < a.toNat then false
      else ltChars as bs

/-- The comparison `a < b` of two map keys. -/
def keyLess (a b : String) : Bool := ltChars a.data b.data

/-- One step of sorting a map's entries by key: `(k, v)` is put before the
first entry with a greater key. -/
def insertKey (k : String) (v : Value) : RowMap → RowMap
  | [] => [(k, v)]
  | (k0, v0) :: t =>
      if keyLess k k0 then (k, v) :: (k0, v0) :: t else (k0, v0) :: insertKey k v t

/-- The entries of a map sorted by key, as `json.Marshal` visits them. -/
def sortKeys : RowMap → RowMap
  | [] => []
  | (k, v) :: t => insertKey k v (sortKeys t)

/-- The members written for the entries in order; the first value that cannot
be encoded is the error. -/
def jsonMembers : RowMap → Except Error JSONObject
  | [] => .ok []
  | (k, v) :: t =>
      match jsonValue v with
      | .error e => .error e
      | .ok j =>
          match jsonMembers t with
          | .error e => .error e
          | .ok js => .ok ((k, j) :: js)

/-- The function `json.Marshal` on a `map[string]interface{}` row map: the
object of its entries, sorted by key. -/
def jsonMarshal (m : RowMap) : Except Error JSONObject := jsonMembers (sortKeys m)

/-! ## Init, lines 46-83, and Close, lines 130-139 -/

/-- The libraries `Init` calls: the error of `sql.Open("mysql", dsn)`, if any,
the error of `db.PingContext(ctx)` on the handle opened with `dsn`, if any, and
`time.ParseDuration`. -/
structure Library where
  openErr : String → Option Error
  pingErr : String → Option Error
  parseDuration : String → Option Int

/-- The stores of `json.Unmarshal(config, &s.cfg)`: a member that is present
overwrites its field. -/
def applyDoc (doc : ConfigDoc) (cfg : Config) : Config :=
  { DSN := doc.dsn.getD cfg.DSN
    Table := doc.table.getD cfg.Table
    Query := doc.query.getD cfg.Query
    BatchSize := doc.batch_size.getD cfg.BatchSize
    PollInterval := doc.poll_interval.getD cfg.PollInterval }

/-- Lines 73-78: the interval handed to `time.NewTicker`. -/
def pollInterval (lib : Library) (cfg : Config) : Int :=
  if cfg.PollInterval = "" then 5 * Second
  else
    match lib.parseDuration cfg.PollInterval with
    | some d => d
    | none => 5 * Second

/-- What one call of `Init` leaves behind. -/
structure InitResult where
  state : MySQLSourceSPI
  err : Option Error
  effects : List Effect
  deriving DecidableEq, Repr

/-- Lines 55-57: a batch size that is zero or negative becomes 100. -/
def normalizeBatch (cfg : Config) : Config :=
  if cfg.BatchSize ≤ 0 then { cfg with BatchSize := 100 } else cfg

/-- The method `Init`, lines 46-83. -/
def Init (lib : Library) (s : MySQLSourceSPI) (config : Decoded) : Outcome InitResult :=
  let s1 : MySQLSourceSPI := { s with cfg := applyDoc config.stored s.cfg }
  match config.err with
  | some e => .ret { state := s1, err := some (Error.wrap "invalid config" e), effects := [] }
  | none =>
    if s1.cfg.DSN = "" then
      .ret { state := s1, err := some (Error.errorf "dsn is required"), effects := [] }
    else
      let s2 : MySQLSourceSPI := { s1 with cfg := normalizeBatch s1.cfg }
      match lib.openErr s2.cfg.DSN with
      | some e =>
          .ret { state := s2, err := some (Error.wrap "failed to connect to MySQL" e),
                 effects := [Effect.sqlOpen s2.cfg.DSN] }
      | none =>
        match lib.pingErr s2.cfg.DSN with
        | some e =>
            .ret { state := s2, err := some (Error.wrap "failed to ping MySQL" e),
                   effects := [Effect.sqlOpen s2.cfg.DSN, Effect.pingContext, Effect.dbClose] }
        | none =>
          let s3 : MySQLSourceSPI := { s2 with db := some { dsn := s2.cfg.DSN } }
          match NewTicker (pollInterval lib s3.cfg) with
          | .panicked msg => .panicked msg
          | .ret t =>
              .ret { state := { s3 with ticker := some t }, err := none,
                     effects := [Effect.sqlOpen s2.cfg.DSN, Effect.pingContext,
                                 Effect.newTicker (pollInterval lib s3.cfg)] }

/-- The method `Close`, lines 130-139: the calls it makes; it returns nil and
leaves the fields as they are. -/
def Close (s : MySQLSourceSPI) : List Effect :=
  (if s.ticker.isSome then [Effect.tickerStop] else []) ++
  (if s.db.isSome then [Effect.dbClose] else [])

/-- The `Ready` state: `Init` has set the connection and the ticker. -/
def Ready (s : MySQLSourceSPI) : Prop := s.db.isSome = true ∧ s.ticker.isSome = true

instance (s : MySQLSourceSPI) : Decidable (Ready s) := by
  unfold Ready; exact inferInstance

/-! ## Repeated polling -/

/-- The next call of `ReadBatch` on `s` that takes its tick returns and sends
`text` to the database as its first external call, whatever the database and
the encoder answer. -/
def NextQueryIs (s : MySQLSourceSPI) (text : String) : Prop :=
  ∀ (P : Type) (marshal : RowMap → Except Error P) (query : String → Except Error Rows)
    (w : Wait), selectCase w = Select.ticked →
    ∃ r, ReadBatch marshal query s w = .ret r ∧
      r.effects.head? = some (Effect.queryContext text)

/-- Successive calls `ReadBatch` on one connector against the same database
answers, the `select` of the i-th call finding `ws[i]`: the results in call
order. -/
def pollN {P : Type} (marshal : RowMap → Except Error P)
    (query : String → Except Error Rows) : List Wait → MySQLSourceSPI →
    Outcome (List (ReadResult P))
  | [], _ => .ret []
  | w :: ws, s =>
      match ReadBatch marshal query s w with
      | .panicked msg => .panicked msg
      | .ret r =>
          match pollN marshal query ws r.state with
          | .panicked msg => .panicked msg
          | .ret rs => .ret (r :: rs)

/-! ## An example environment

A five-row table behind a store that understands the paginated statements of
one configuration, and an encoder that never fails and whose payload is the
row map itself. -/

/-- The result set a store returns for rows `[o, o+b)` of `table`. -/
def window (cols : List String) (table : List (List Value)) (b : Nat) (o : Nat) : Rows :=
  { columns := .ok cols, scans := ((table.drop o).take b).map Except.ok, err := none }

/-- A store holding `table` that answers the paginated statements of `cfg` for
the offsets `0 .. table.length` and rejects every other text. -/
def pagedQuery (cfg : Config) (cols : List String) (table : List (List Value)) :
    String → Except Error Rows :=
  fun text =>
    match (List.range (table.length + 1)).find?
        (fun (o : Nat) => decide (text = paginatedQuery cfg (Int.ofNat o))) with
    | some o => .ok (window cols table cfg.BatchSize.toNat o)
    | none => .error (Error.lib "statement not understood")

/-- An encoder whose payload is the row map. -/
def exMarshal : RowMap → Except Error RowMap := Except.ok

/-- An encoder that rejects every row. -/
def exBadMarshal : RowMap → Except Error RowMap := fun _ => .error (Error.lib "unsupported value")

/-- A configuration after `Init`: table `t`, batches of two rows. -/
def exCfg : Config := { DSN := "app@tcp(db:3306)/shop", Table := "t", BatchSize := 2 }

/-- A connector in the `Ready` state, at the start of a scan. -/
def exReady : MySQLSourceSPI :=
  { db := some { dsn := exCfg.DSN }, cfg := exCfg, offset := 0,
    ticker := some { interval := 5 * Second } }

/-- The same connector at the end of a scan of five rows. -/
def exDone : MySQLSourceSPI := { exReady with offset := 5 }

/-- The column list of the example table. -/
def exCols : List String := ["id"]

/-- The five rows of the example table. -/
def exTable : List (List Value) := [[.int 1], [.int 2], [.int 3], [.int 4], [.int 5]]

/-- Four calls that each find a tick pending and the context not cancelled. -/
def exWaits : List Wait := [Wait.tick, Wait.tick, Wait.tick, Wait.tick]

/-- The store of the example table. -/
def exQuery : String → Except Error Rows := pagedQuery exCfg exCols exTable

/-- The answers of `QueryContext` under a cancelled context: every statement
fails with the error of `context.Canceled`. -/
def exCanceledQuery : String → Except Error Rows :=
  fun _ => .error (Error.lib "context canceled")

/-- A store whose every statement fails. -/
def exDownQuery : String → Except Error Rows := fun _ => .error (Error.lib "invalid connection")

/-- The payload of a row of the example table under `exMarshal`. -/
def exEnc (row : List Value) : RowMap := rowToMap exCols row

/-- A driver that opens and pings every connection string, with the standard
`time.ParseDuration`. -/
def exLib : Library :=
  { openErr := fun _ => none
    pingErr := fun _ => none
    parseDuration := ParseDuration }

/-! ## The configuration defaults as the specification words them -/

/-- The effective batch size the specification gives for a `batch_size` member:
100 when it is absent, zero or negative, the given value when it is positive. -/
def specBatchSize (given : Option Int) : Int :=
  match given with
  | none => 100
  | some n => if 0 < n then n else 100

/-- The poll interval the specification gives for a `poll_interval` member: five
seconds when it is absent, empty or does not parse as a duration, the parsed
duration otherwise. -/
def specPollInterval (parse : String → Option Int) (given : Option String) : Int :=
  match given with
  | none => 5000000000
  | some text =>
      if text = "" then 5000000000
      else
        match parse text with
        | none => 5000000000
        | some d => d

/-- A configuration document with a negative batch size and a poll interval of a
quarter of a second. -/
def exDoc : Decoded :=
  { stored := { dsn := some "app@tcp(db:3306)/shop", table := some "t",
                batch_size := some (-3), poll_interval := some "250ms" } }

/-- What `Init` returns for `exDoc` on a fresh connector. -/
def exInitResult : InitResult :=
  { state := { db := some { dsn := "app@tcp(db:3306)/shop" },
               cfg := { DSN := "app@tcp(db:3306)/shop", Table := "t", BatchSize := 100,
                        PollInterval := "250ms" },
               offset := 0,
               ticker := some { interval := 250000000 } },
    err := none,
    effects := [Effect.sqlOpen "app@tcp(db:3306)/shop", Effect.pingContext,
                Effect.newTicker 250000000] }

/-- A configuration document without a connection string. -/
def exNoDsn : Decoded := { stored := { table := some "t", batch_size := some 10 } }

/-- A configuration document with a connection string and nothing else. -/
def exBare : Decoded := { stored := { dsn := some "app@tcp(db:3306)/shop" } }

/-- What `Init` returns for `exBare` on a fresh connector. -/
def exBareState : InitResult :=
  { state := { db := some { dsn := "app@tcp(db:3306)/shop" },
               cfg := { DSN := "app@tcp(db:3306)/shop", BatchSize := 100 },
               offset := 0,
               ticker := some { interval := 5000000000 } },
    err := none,
    effects := [Effect.sqlOpen "app@tcp(db:3306)/shop", Effect.pingContext,
                Effect.newTicker 5000000000] }

/-- A configuration document whose poll interval is the duration zero. -/
def exZeroInterval : Decoded :=
  { stored := { dsn := some "app@tcp(db:3306)/shop", table := some "t",
                poll_interval := some "0s" } }

/-- A configuration document whose poll interval is a negative duration. -/
def exNegInterval : Decoded :=
  { stored := { dsn := some "app@tcp(db:3306)/shop", table := some "t",
                poll_interval := some "-1s" } }

/-- A result set of one row with two columns of the same name, as a statement
such as `SELECT a, a FROM t` or a join yields: the first holds the bytes of
"x", the second the integer 1. -/
def exDupRows : Rows :=
  { columns := .ok ["a", "a"], scans := [.ok [Value.bytes [120], Value.int 1]], err := none }

/-- A result set of one row whose binary column holds bytes that are not valid
UTF-8 (`FF FE 41`). -/
def exBinRows : Rows :=
  { columns := .ok ["c"], scans := [.ok [Value.bytes [0xFF, 0xFE, 0x41]]], err := none }

/-- A result set of one row with an integer column and a binary column holding
the UTF-8 bytes of "hé" (`68 C3 A9`). -/
def exBlobRows : Rows :=
  { columns := .ok ["n", "blob"],
    scans := [.ok [Value.int 7, Value.bytes [0x68, 0xC3, 0xA9]]], err := none }

/-- The sizes of the batches, the offsets left behind and whether an error was
returned, call by call; `none` for a scan that panicked. -/
def scanSummary {P : Type} : Outcome (List (ReadResult P)) → Option (List (Nat × Int × Bool))
  | .panicked _ => none
  | .ret rs => some (rs.map (fun r => (r.batch.Records.length, r.state.offset, r.err.isSome)))

end MySQLSource

/-! # Theorems -/

namespace MySQLSource

/-! ## The duration parser always has fuel -/

lemma leadingInt_length : ∀ (s : List Char) (x v : Nat) (r : List Char),
    leadingInt s x = some (v, r) → r.length ≤ s.length := by
  intro s
  induction s with
  | nil =>
    intro x v r h
    simp only [leadingInt, Option.some.injEq, Prod.mk.injEq] at h
    simp [← h.2]
  | cons c cs ih =>
    intro x v r h
    simp only [leadingInt] at h
    split at h
    · split at h
      · cases h
      · split at h
        · cases h
        · have := ih _ _ _ h
          simp only [List.length_cons]
          omega
    · simp only [Option.some.injEq, Prod.mk.injEq] at h
      simp [← h.2]

lemma leadingFraction_length : ∀ (s : List Char) (x scale : Nat) (o : Bool),
    (leadingFraction s x scale o).2.2.length ≤ s.length := by
  intro s
  induction s with
  | nil => intro x scale o; simp [leadingFraction]
  | cons c cs ih =>
    intro x scale o
    simp only [leadingFraction]
    split
    · split
      · have := ih x scale true
        simp only [List.length_cons]; omega
      · split
        · have := ih x scale true
          simp only [List.length_cons]; omega
        · split
          · have := ih x scale true
            simp only [List.length_cons]; omega
          · have := ih (x * 10 + (c.toNat - 48)) (scale * 10) false
            simp only [List.length_cons]; omega
    · simp

lemma fractionPart_length (s1 : List Char) : (fractionPart s1).2.2.1.length ≤ s1.length := by
  unfold fractionPart
  split
  · rename_i t
    have := leadingFraction_length t 0 1 false
    simp only [List.length_cons]
    omega
  · simp

lemma span_snd_length (p : Char → Bool) (l : List Char) (h : (l.span p).1 ≠ []) :
    (l.span p).2.length < l.length := by
  rw [List.span_eq_take_drop] at h ⊢
  simp only at h ⊢
  have hlen : (l.takeWhile p).length + (l.dropWhile p).length = l.length := by
    rw [← List.length_append, List.takeWhile_append_dropWhile]
  have hpos : 0 < (l.takeWhile p).length := List.length_pos.mpr h
  omega

/-- Each round of the loop consumes at least one character. -/
lemma parseTerm_shorter (s : List Char) (d : Nat)
    (rest : List Char) (d1 : Nat) (h : parseTerm s d = some (rest, d1)) :
    rest.length < s.length := by
  unfold parseTerm at h
  split at h
  · cases h
  · rename_i c cs
    split at h
    · cases h
    · split at h
      · cases h
      · rename_i v s1 hli
        have h1 := leadingInt_length _ _ _ _ hli
        have h2 := fractionPart_length s1
        simp only at h
        split at h
        · cases h
        · split at h
          · cases h
          · rename_i hne
            split at h
            · cases h
            · split at h
              · cases h
              · simp only [Option.some.injEq, Prod.mk.injEq] at h
                have h3 := span_snd_length _ _ hne
                rw [← h.1]
                omega

/-- The loop never runs out of fuel: with fuel at least the length of the text
its result does not depend on the fuel. -/
lemma parseLoop_fuel :
    ∀ (fuel : Nat) (s : List Char) (d : Nat), s.length ≤ fuel →
      parseLoop fuel s d = parseLoop (fuel + 1) s d := by
  intro fuel
  induction fuel with
  | zero =>
    intro s d hs
    have : s = [] := List.length_eq_zero.mp (by omega)
    subst this
    simp [parseLoop]
  | succ fuel ih =>
    intro s d hs
    rw [parseLoop, parseLoop]
    by_cases hnil : s = []
    · simp [hnil]
    · simp only [hnil, if_false]
      cases hterm : parseTerm s d with
      | none => rfl
      | some res =>
        obtain ⟨rest, d1⟩ := res
        have := parseTerm_shorter s d rest d1 hterm
        exact ih rest d1 (by omega)

/-! ## Conversion lemmas -/

lemma convertLoop_length {P : Type} (marshal : RowMap → Except Error P) (table : String)
    (cols : List String) (rowsErr : Option Error) :
    ∀ (scans : List (Except Error (List Value))) (acc : List (Record P)),
      (convertLoop marshal table cols rowsErr scans acc).2 = none →
      (convertLoop marshal table cols rowsErr scans acc).1.length = acc.length + scans.length := by
  intro scans
  induction scans with
  | nil => intro acc _; simp [convertLoop]
  | cons x rest ih =>
    intro acc h
    cases x with
    | error e => simp [convertLoop] at h
    | ok values =>
      cases hm : marshal (rowToMap cols values) with
      | error e => simp [convertLoop, hm] at h
      | ok payload =>
        simp only [convertLoop, hm] at h ⊢
        rw [ih _ h]
        simp only [List.length_append, List.length_cons, List.length_nil]
        omega

lemma convertLoop_fails {P : Type} (marshal : RowMap → Except Error P) (table : String)
    (cols : List String) (rowsErr : Option Error) :
    ∀ (scans : List (Except Error (List Value))) (acc : List (Record P)),
      ((∃ e, Except.error e ∈ scans) ∨ (∃ e, rowsErr = some e) ∨
        (∃ values e, Except.ok values ∈ scans ∧ marshal (rowToMap cols values) = .error e)) →
      ∃ e, (convertLoop marshal table cols rowsErr scans acc).2 = some e := by
  intro scans
  induction scans with
  | nil =>
    intro acc h
    rcases h with ⟨e, he⟩ | ⟨e, he⟩ | ⟨v, e, he, _⟩
    · simp at he
    · exact ⟨e, by simp [convertLoop, he]⟩
    · simp at he
  | cons x rest ih =>
    intro acc h
    cases x with
    | error e0 => exact ⟨e0, by simp [convertLoop]⟩
    | ok values =>
      cases hm : marshal (rowToMap cols values) with
      | error e0 => exact ⟨e0, by simp [convertLoop, hm]⟩
      | ok payload =>
        simp only [convertLoop, hm]
        apply ih
        rcases h with ⟨e, he⟩ | ⟨e, he⟩ | ⟨v, e, hv, hve⟩
        · left
          refine ⟨e, ?_⟩
          simpa using he
        · right; left; exact ⟨e, he⟩
        · right; right
          rcases List.mem_cons.mp hv with heq | hmem
          · have hvv : v = values := by injection heq
            subst hvv
            rw [hm] at hve
            cases hve
          · exact ⟨v, e, hmem, hve⟩

lemma readBatch_query_error {P : Type} (marshal : RowMap → Except Error P)
    (query : String → Except Error Rows) (s : MySQLSourceSPI) (w : Wait)
    (hw : selectCase w = Select.ticked) (h : Ready s) (e : Error)
    (hq : query (paginatedQuery s.cfg s.offset) = .error e) :
    ReadBatch marshal query s w =
      .ret { state := s, batch := {}, err := some (Error.wrap "query failed" e),
             effects := [Effect.queryContext (paginatedQuery s.cfg s.offset)] } := by
  obtain ⟨hd, ht⟩ := h
  obtain ⟨t, ht⟩ := Option.isSome_iff_exists.mp ht
  obtain ⟨d, hd⟩ := Option.isSome_iff_exists.mp hd
  simp only [ReadBatch, ht, hd, hw, hq]

lemma readBatch_convert_error {P : Type} (marshal : RowMap → Except Error P)
    (query : String → Except Error Rows) (s : MySQLSourceSPI) (w : Wait)
    (hw : selectCase w = Select.ticked) (h : Ready s) (rows : Rows)
    (records : List (Record P)) (e : Error)
    (hq : query (paginatedQuery s.cfg s.offset) = .ok rows)
    (hrr : rowsToRecords marshal rows s.cfg.Table = (records, some e)) :
    ReadBatch marshal query s w =
      .ret { state := s, batch := {}, err := some e,
             effects := [Effect.queryContext (paginatedQuery s.cfg s.offset),
                         Effect.rowsClose] } := by
  obtain ⟨hd, ht⟩ := h
  obtain ⟨t, ht⟩ := Option.isSome_iff_exists.mp ht
  obtain ⟨d, hd⟩ := Option.isSome_iff_exists.mp hd
  simp only [ReadBatch, ht, hd, hw, hq, hrr]

lemma readBatch_empty {P : Type} (marshal : RowMap → Except Error P)
    (query : String → Except Error Rows) (s : MySQLSourceSPI) (w : Wait)
    (hw : selectCase w = Select.ticked) (h : Ready s) (rows : Rows)
    (hq : query (paginatedQuery s.cfg s.offset) = .ok rows)
    (hrr : rowsToRecords marshal rows s.cfg.Table = ([], none)) :
    ReadBatch marshal query s w =
      .ret { state := { s with offset := 0 }, batch := {}, err := none,
             effects := [Effect.queryContext (paginatedQuery s.cfg s.offset),
                         Effect.rowsClose] } := by
  obtain ⟨hd, ht⟩ := h
  obtain ⟨t, ht⟩ := Option.isSome_iff_exists.mp ht
  obtain ⟨d, hd⟩ := Option.isSome_iff_exists.mp hd
  simp only [ReadBatch, ht, hd, hw, hq, hrr, List.length_nil, if_true]

lemma readBatch_records {P : Type} (marshal : RowMap → Except Error P)
    (query : String → Except Error Rows) (s : MySQLSourceSPI) (w : Wait)
    (hw : selectCase w = Select.ticked) (h : Ready s) (rows : Rows)
    (records : List (Record P))
    (hq : query (paginatedQuery s.cfg s.offset) = .ok rows)
    (hrr : rowsToRecords marshal rows s.cfg.Table = (records, none))
    (hne : records.length ≠ 0) :
    ReadBatch marshal query s w =
      .ret { state := { s with offset := s.offset + records.length },
             batch := { Records := records, Context := [("table", s.cfg.Table)] },
             err := none,
             effects := [Effect.queryContext (paginatedQuery s.cfg s.offset),
                         Effect.rowsClose] } := by
  obtain ⟨hd, ht⟩ := h
  obtain ⟨t, ht⟩ := Option.isSome_iff_exists.mp ht
  obtain ⟨d, hd⟩ := Option.isSome_iff_exists.mp hd
  simp only [ReadBatch, ht, hd, hw, hq, hrr, hne, if_false]

lemma nextQueryIs_paginated (s : MySQLSourceSPI) (h : Ready s) :
    NextQueryIs s (paginatedQuery s.cfg s.offset) := by
  intro P marshal query w hw
  cases hq : query (paginatedQuery s.cfg s.offset) with
  | error e => exact ⟨_, readBatch_query_error marshal query s w hw h e hq, rfl⟩
  | ok rows =>
    rcases hrr : rowsToRecords marshal rows s.cfg.Table with ⟨records, e⟩
    cases e with
    | some e =>
      exact ⟨_, readBatch_convert_error marshal query s w hw h rows records e hq hrr, rfl⟩
    | none =>
      by_cases hz : records.length = 0
      · have hnil : records = [] := List.length_eq_zero.mp hz
        subst hnil
        exact ⟨_, readBatch_empty marshal query s w hw h rows hq hrr, rfl⟩
      · exact ⟨_, readBatch_records marshal query s w hw h rows records hq hrr hz, rfl⟩

/-! ## Row map lemmas -/

lemma mapGet_mapSet_self (m : RowMap) (k : String) (v : Value) :
    mapGet (mapSet m k v) k = some v := by
  induction m with
  | nil => simp [mapSet, mapGet]
  | cons hd t ih =>
    obtain ⟨k0, v0⟩ := hd
    by_cases h : k0 = k
    · simp [mapSet, mapGet, h]
    · simp [mapSet, mapGet, h, ih]

lemma mapGet_mapSet_ne (m : RowMap) (k k1 : String) (v : Value) (hne : k ≠ k1) :
    mapGet (mapSet m k v) k1 = mapGet m k1 := by
  induction m with
  | nil => simp [mapSet, mapGet, hne]
  | cons hd t ih =>
    obtain ⟨k0, v0⟩ := hd
    by_cases h : k0 = k
    · subst h
      simp [mapSet, mapGet, hne]
    · by_cases h1 : k0 = k1
      · subst h1
        simp [mapSet, mapGet, h]
      · simp [mapSet, mapGet, h, h1, ih]

lemma fillRowMap_not_mem (values : List Value) (col : String) :
    ∀ (cols : List String) (i : Nat) (m : RowMap), col ∉ cols →
      mapGet (fillRowMap values i cols m) col = mapGet m col := by
  intro cols
  induction cols with
  | nil => intro i m _; rfl
  | cons c rest ih =>
    intro i m hnot
    have hc : c ≠ col := fun h => hnot (by simp [h])
    have hr : col ∉ rest := fun h => hnot (by simp [h])
    simp only [fillRowMap]
    rw [ih _ _ hr, mapGet_mapSet_ne _ _ _ _ hc]

lemma fillRowMap_last (values : List Value) (col : String) :
    ∀ (cols : List String) (i : Nat) (m : RowMap) (j : Nat), cols[j]? = some col →
      (∀ j1, j < j1 → cols[j1]? ≠ some col) →
      mapGet (fillRowMap values i cols m) col
        = some (normalize (values.getD (i + j) Value.null)) := by
  intro cols
  induction cols with
  | nil => intro i m j hj; simp at hj
  | cons c rest ih =>
    intro i m j hj hlast
    cases j with
    | zero =>
      simp only [List.getElem?_cons_zero, Option.some.injEq] at hj
      subst hj
      have hr : c ∉ rest := by
        intro hmem
        obtain ⟨n, hn⟩ := List.getElem?_of_mem hmem
        exact hlast (n + 1) (by omega) (by simpa using hn)
      simp only [fillRowMap]
      rw [fillRowMap_not_mem values c rest _ _ hr, mapGet_mapSet_self]
      simp
    | succ j0 =>
      simp only [List.getElem?_cons_succ] at hj
      simp only [fillRowMap]
      rw [ih (i + 1) _ j0 hj (fun j1 hj1 => by
        have := hlast (j1 + 1) (by omega)
        simpa using this)]
      congr 3
      omega

lemma convertLoop_extends {P : Type} (marshal : RowMap → Except Error P) (table : String)
    (cols : List String) (rowsErr : Option Error) :
    ∀ (scans : List (Except Error (List Value))) (acc records : List (Record P)),
      convertLoop marshal table cols rowsErr scans acc = (records, none) →
      ∃ tail, records = acc ++ tail := by
  intro scans
  induction scans with
  | nil =>
    intro acc records h
    simp only [convertLoop, Prod.mk.injEq] at h
    exact ⟨[], by simp [h.1]⟩
  | cons x rest ih =>
    intro acc records h
    cases x with
    | error e => simp [convertLoop] at h
    | ok values =>
      cases hm : marshal (rowToMap cols values) with
      | error e => simp [convertLoop, hm] at h
      | ok payload =>
        simp only [convertLoop, hm] at h
        obtain ⟨tail, ht⟩ := ih _ _ h
        exact ⟨mkRecord table payload :: tail, by simp [ht]⟩

lemma convertLoop_record {P : Type} (marshal : RowMap → Except Error P) (table : String)
    (cols : List String) (rowsErr : Option Error) :
    ∀ (scans : List (Except Error (List Value))) (acc records : List (Record P)),
      convertLoop marshal table cols rowsErr scans acc = (records, none) →
      ∀ (k : Nat) (values : List Value), scans[k]? = some (.ok values) →
        ∃ r, records[acc.length + k]? = some r ∧
          marshal (rowToMap cols values) = .ok r.Payload ∧
          r.Metadata = [("source", "mysql"), ("table", table)] := by
  intro scans
  induction scans with
  | nil => intro acc records _ k values hk; simp at hk
  | cons x rest ih =>
    intro acc records h k values hk
    cases x with
    | error e => simp [convertLoop] at h
    | ok v =>
      cases hm : marshal (rowToMap cols v) with
      | error e => simp [convertLoop, hm] at h
      | ok payload =>
        simp only [convertLoop, hm] at h
        cases k with
        | zero =>
          simp only [List.getElem?_cons_zero, Option.some.injEq] at hk
          injection hk with hk
          subst hk
          obtain ⟨tail, ht⟩ := convertLoop_extends marshal table cols rowsErr _ _ _ h
          refine ⟨mkRecord table payload, ?_, hm, rfl⟩
          rw [ht, List.append_assoc, Nat.add_zero,
            List.getElem?_append_right (Nat.le_refl _), Nat.sub_self]
          simp
        | succ k0 =>
          simp only [List.getElem?_cons_succ] at hk
          obtain ⟨r, hr, hp, hmeta⟩ := ih _ _ h k0 values hk
          refine ⟨r, ?_, hp, hmeta⟩
          rw [← hr]
          congr 1
          simp only [List.length_append, List.length_cons, List.length_nil]
          omega

/-! ## Pagination lemmas -/

lemma ready_withOffset (s : MySQLSourceSPI) (h : Ready s) (x : Int) :
    Ready { s with offset := x } := h

lemma convertLoop_ok_rows {P : Type} (marshal : RowMap → Except Error P) (table : String)
    (cols : List String) (enc : List Value → P) :
    ∀ (L : List (List Value)) (acc : List (Record P)),
      (∀ row ∈ L, marshal (rowToMap cols row) = .ok (enc row)) →
      convertLoop marshal table cols none (L.map Except.ok) acc
        = (acc ++ L.map (fun row => mkRecord table (enc row)), none) := by
  intro L
  induction L with
  | nil => intro acc _; simp [convertLoop]
  | cons row rest ih =>
    intro acc h
    have hrow := h row (by simp)
    simp only [List.map_cons, convertLoop, hrow]
    rw [ih _ (fun r hr => h r (by simp [hr]))]
    simp

lemma window_records {P : Type} (marshal : RowMap → Except Error P) (table : String)
    (cols : List String) (enc : List Value → P) (R : List (List Value)) (b o : Nat)
    (hm : ∀ row ∈ R, marshal (rowToMap cols row) = .ok (enc row)) :
    rowsToRecords marshal (window cols R b o) table
      = (((R.drop o).take b).map (fun row => mkRecord table (enc row)), none) := by
  unfold rowsToRecords window
  simp only
  rw [convertLoop_ok_rows marshal table cols enc _ []
    (fun row hr => hm row (List.mem_of_mem_drop (List.mem_of_mem_take hr)))]
  simp

/-- One poll inside the result set: the window of `b` rows from offset `o`. -/
lemma readBatch_window {P : Type} (marshal : RowMap → Except Error P)
    (query : String → Except Error Rows) (s : MySQLSourceSPI) (cols : List String)
    (enc : List Value → P) (R : List (List Value)) (b o : Nat) (w : Wait)
    (hw : selectCase w = Select.ticked)
    (h : Ready s) (hb : 0 < b) (ho : o < R.length)
    (hq : query (paginatedQuery s.cfg (o : Int)) = .ok (window cols R b o))
    (hm : ∀ row ∈ R, marshal (rowToMap cols row) = .ok (enc row)) :
    ReadBatch marshal query { s with offset := (o : Int) } w =
      .ret { state := { s with offset := ((min (o + b) R.length : Nat) : Int) },
             batch := { Records :=
                          ((R.drop o).take b).map (fun row => mkRecord s.cfg.Table (enc row)),
                        Context := [("table", s.cfg.Table)] },
             err := none,
             effects := [Effect.queryContext (paginatedQuery s.cfg (o : Int)),
                         Effect.rowsClose] } := by
  have hrr := window_records marshal s.cfg.Table cols enc R b o hm
  have hlen : (((R.drop o).take b).map (fun row => mkRecord s.cfg.Table (enc row))).length
      = min b (R.length - o) := by
    simp [List.length_take, List.length_drop]
  have hne : (((R.drop o).take b).map (fun row => mkRecord s.cfg.Table (enc row))).length ≠ 0 := by
    rw [hlen]; omega
  rw [readBatch_records marshal query { s with offset := (o : Int) } w hw
    (ready_withOffset s h _) (window cols R b o) _ hq hrr hne]
  rw [hlen]
  have hoff : (o : Int) + ((min b (R.length - o) : Nat) : Int)
      = ((min (o + b) R.length : Nat) : Int) := by omega
  simp only [hoff]

/-- One poll at the end of the result set. -/
lemma readBatch_exhausted {P : Type} (marshal : RowMap → Except Error P)
    (query : String → Except Error Rows) (s : MySQLSourceSPI) (cols : List String)
    (enc : List Value → P) (R : List (List Value)) (b o : Nat) (w : Wait)
    (hw : selectCase w = Select.ticked)
    (h : Ready s) (ho : R.length ≤ o)
    (hq : query (paginatedQuery s.cfg (o : Int)) = .ok (window cols R b o))
    (hm : ∀ row ∈ R, marshal (rowToMap cols row) = .ok (enc row)) :
    ReadBatch marshal query { s with offset := (o : Int) } w =
      .ret { state := { s with offset := 0 }, batch := {}, err := none,
             effects := [Effect.queryContext (paginatedQuery s.cfg (o : Int)),
                         Effect.rowsClose] } := by
  have hrr := window_records marshal s.cfg.Table cols enc R b o hm
  rw [List.drop_eq_nil_of_le ho, List.take_nil, List.map_nil] at hrr
  exact readBatch_empty marshal query { s with offset := (o : Int) } w hw
    (ready_withOffset s h _) (window cols R b o) hq hrr

lemma pollN_cons {P : Type} (marshal : RowMap → Except Error P)
    (query : String → Except Error Rows) (w : Wait) (ws : List Wait) (s : MySQLSourceSPI)
    (r : ReadResult P) (rs : List (ReadResult P))
    (hr : ReadBatch marshal query s w = .ret r)
    (hrs : pollN marshal query ws r.state = .ret rs) :
    pollN marshal query (w :: ws) s = .ret (r :: rs) := by
  simp only [pollN, hr, hrs]

/-- A scan from the `j`-th window on: `m` non-empty batches, then the empty one. -/
lemma pollN_scan {P : Type} (marshal : RowMap → Except Error P)
    (query : String → Except Error Rows) (s : MySQLSourceSPI) (cols : List String)
    (enc : List Value → P) (R : List (List Value)) (b : Nat)
    (h : Ready s) (hb : 0 < b)
    (hq : ∀ o : Nat, o ≤ R.length →
      query (paginatedQuery s.cfg (o : Int)) = .ok (window cols R b o))
    (hm : ∀ row ∈ R, marshal (rowToMap cols row) = .ok (enc row)) :
    ∀ (m j : Nat) (ws : List Wait), ws.length = m + 1 →
      (∀ w ∈ ws, selectCase w = Select.ticked) →
      (∀ i, i < m → (j + i) * b < R.length) → R.length ≤ (j + m) * b →
      ∃ rs, pollN marshal query ws { s with offset := ((min (j * b) R.length : Nat) : Int) }
          = .ret rs ∧
        rs.length = m + 1 ∧
        (∀ i, i < m → ∃ r, rs[i]? = some r ∧ r.err = none ∧
          r.batch.Records
            = ((R.drop ((j + i) * b)).take b).map (fun row => mkRecord s.cfg.Table (enc row)) ∧
          r.batch.Records ≠ [] ∧
          r.state.offset = ((min ((j + i + 1) * b) R.length : Nat) : Int)) ∧
        (rs.take m).flatMap (fun r => r.batch.Records)
          = (R.drop (j * b)).map (fun row => mkRecord s.cfg.Table (enc row)) ∧
        (∃ r, rs[m]? = some r ∧ r.err = none ∧ r.batch.Records = [] ∧ r.state.offset = 0) := by
  intro m
  induction m with
  | zero =>
    intro j ws hws htick _ hle
    obtain ⟨w, rfl⟩ : ∃ w, ws = [w] := List.length_eq_one.mp (by simpa using hws)
    have hw := htick w (by simp)
    have hmin : min (j * b) R.length = R.length := by
      simp only [Nat.add_zero] at hle
      omega
    rw [hmin]
    have hstep := readBatch_exhausted marshal query s cols enc R b R.length w hw h
      (Nat.le_refl _) (hq _ (Nat.le_refl _)) hm
    refine ⟨[_], pollN_cons marshal query w [] _ _ [] hstep rfl, rfl, ?_, ?_, ?_⟩
    · intro i hi; omega
    · simp only [Nat.add_zero] at hle
      simp [List.drop_eq_nil_of_le hle]
    · exact ⟨_, rfl, rfl, rfl, rfl⟩
  | succ m ih =>
    intro j ws hws htick hlt hle
    obtain ⟨w, ws1, rfl⟩ : ∃ w ws1, ws = w :: ws1 := by
      cases ws with
      | nil => simp at hws
      | cons w ws1 => exact ⟨w, ws1, rfl⟩
    have hw := htick w (by simp)
    have hws1 : ws1.length = m + 1 := by simpa using hws
    have hj : j * b < R.length := by simpa using hlt 0 (by omega)
    have hmin : min (j * b) R.length = j * b := by omega
    have hsucc : (j + 1) * b = j * b + b := Nat.succ_mul j b
    rw [hmin]
    have hstep := readBatch_window marshal query s cols enc R b (j * b) w hw h hb hj
      (hq _ (by omega)) hm
    rw [← hsucc] at hstep
    obtain ⟨rs, hrs, hlen, hbatches, hcat, hlast⟩ := ih (j + 1) ws1 hws1
      (fun w1 hw1 => htick w1 (by simp [hw1]))
      (fun i hi => by
        have := hlt (i + 1) (by omega)
        rwa [show j + (i + 1) = j + 1 + i by omega] at this)
      (by rwa [show j + (m + 1) = j + 1 + m by omega] at hle)
    refine ⟨_ :: rs, pollN_cons marshal query w ws1 _ _ rs hstep hrs, by simp [hlen],
      ?_, ?_, ?_⟩
    · intro i hi
      cases i with
      | zero =>
        refine ⟨_, List.getElem?_cons_zero, rfl, ?_, ?_, ?_⟩
        · simp only [Nat.add_zero]
        · simp only [ne_eq, List.map_eq_nil_iff, List.take_eq_nil_iff, List.drop_eq_nil_iff]
          omega
        · simp only [Nat.add_zero]
      | succ i0 =>
        obtain ⟨r, hr, herr, hrec, hne, hoff⟩ := hbatches i0 (by omega)
        refine ⟨r, by simpa using hr, herr, ?_, hne, ?_⟩
        · rw [hrec, show j + 1 + i0 = j + (i0 + 1) by omega]
        · rw [hoff, show j + 1 + i0 + 1 = j + (i0 + 1) + 1 by omega]
    · simp only [List.take_succ_cons, List.flatMap_cons, hcat]
      rw [← List.map_append, hsucc, ← List.drop_drop, List.take_append_drop]
    · obtain ⟨r, hr, rest⟩ := hlast
      exact ⟨r, by simpa using hr, rest⟩

/-! ## JSON encoding lemmas -/

lemma coerceFrom_valid : ∀ (l : Bytes) (skip : Nat), validFrom skip l = true →
    coerceFrom skip l = l := by
  intro l
  induction l with
  | nil => intro skip _; cases skip <;> rfl
  | cons b t ih =>
    intro skip h
    cases skip with
    | succ k =>
      simp only [validFrom] at h
      simp only [coerceFrom, ih k h]
    | zero =>
      simp only [validFrom] at h
      simp only [coerceFrom]
      cases hr : runeLen b t with
      | none => simp [hr] at h
      | some n =>
        simp only [hr] at h
        simp only [ih (n - 1) h]

/-- Valid UTF-8 is written unchanged. -/
lemma toValidUTF8_valid (b : Bytes) (h : validUTF8 b = true) : toValidUTF8 b = b :=
  coerceFrom_valid b 0 h

lemma mem_keys_mapSet (m : RowMap) (k : String) (v : Value) (x : String) :
    x ∈ (mapSet m k v).map Prod.fst ↔ x = k ∨ x ∈ m.map Prod.fst := by
  induction m with
  | nil => simp [mapSet]
  | cons hd t ih =>
    obtain ⟨k0, v0⟩ := hd
    by_cases h : k0 = k
    · subst h
      simp [mapSet]
    · simp only [mapSet, h, if_false, List.map_cons, List.mem_cons, ih]
      tauto

lemma mapSet_nodup (m : RowMap) (k : String) (v : Value) (h : (m.map Prod.fst).Nodup) :
    ((mapSet m k v).map Prod.fst).Nodup := by
  induction m with
  | nil => simp [mapSet]
  | cons hd t ih =>
    obtain ⟨k0, v0⟩ := hd
    simp only [List.map_cons, List.nodup_cons] at h
    by_cases hk : k0 = k
    · subst hk
      simp only [mapSet, if_true, List.map_cons, List.nodup_cons]
      exact h
    · simp only [mapSet, hk, if_false, List.map_cons, List.nodup_cons]
      refine ⟨?_, ih h.2⟩
      rw [mem_keys_mapSet]
      rintro (h1 | h1)
      · exact hk h1
      · exact h.1 h1

lemma fillRowMap_nodup (values : List Value) :
    ∀ (cols : List String) (i : Nat) (m : RowMap), (m.map Prod.fst).Nodup →
      ((fillRowMap values i cols m).map Prod.fst).Nodup := by
  intro cols
  induction cols with
  | nil => intro i m h; exact h
  | cons c rest ih =>
    intro i m h
    simp only [fillRowMap]
    exact ih _ _ (mapSet_nodup m c _ h)

lemma rowToMap_nodup (cols : List String) (values : List Value) :
    ((rowToMap cols values).map Prod.fst).Nodup :=
  fillRowMap_nodup values cols 0 [] (by simp)

lemma mem_keys_insertKey (k : String) (v : Value) (l : RowMap) (x : String) :
    x ∈ (insertKey k v l).map Prod.fst ↔ x = k ∨ x ∈ l.map Prod.fst := by
  induction l with
  | nil => simp [insertKey]
  | cons hd t ih =>
    obtain ⟨k0, v0⟩ := hd
    by_cases h : keyLess k k0 = true
    · simp [insertKey, h]
    · have hk : insertKey k v ((k0, v0) :: t) = (k0, v0) :: insertKey k v t := by
        simp [insertKey, h]
      rw [hk]
      simp only [List.map_cons, List.mem_cons, ih]
      tauto

lemma mem_keys_sortKeys (l : RowMap) (x : String) :
    x ∈ (sortKeys l).map Prod.fst ↔ x ∈ l.map Prod.fst := by
  induction l with
  | nil => simp [sortKeys]
  | cons hd t ih =>
    obtain ⟨k0, v0⟩ := hd
    simp only [sortKeys, mem_keys_insertKey, ih, List.map_cons, List.mem_cons]

lemma mapGet_insertKey_self (k : String) (v : Value) (l : RowMap)
    (h : k ∉ l.map Prod.fst) : mapGet (insertKey k v l) k = some v := by
  induction l with
  | nil => simp [insertKey, mapGet]
  | cons hd t ih =>
    obtain ⟨k0, v0⟩ := hd
    simp only [List.map_cons, List.mem_cons, not_or] at h
    by_cases hlt : keyLess k k0 = true
    · simp [insertKey, hlt, mapGet]
    · have hne : ¬ k0 = k := fun e => h.1 e.symm
      have hk : insertKey k v ((k0, v0) :: t) = (k0, v0) :: insertKey k v t := by
        simp [insertKey, hlt]
      rw [hk]
      simp only [mapGet, hne, if_false]
      exact ih h.2

lemma mapGet_insertKey_ne (k k1 : String) (v : Value) (l : RowMap) (hne : k ≠ k1) :
    mapGet (insertKey k v l) k1 = mapGet l k1 := by
  induction l with
  | nil => simp [insertKey, mapGet, hne]
  | cons hd t ih =>
    obtain ⟨k0, v0⟩ := hd
    by_cases hlt : keyLess k k0 = true
    · simp [insertKey, hlt, mapGet, hne]
    · have hk : insertKey k v ((k0, v0) :: t) = (k0, v0) :: insertKey k v t := by
        simp [insertKey, hlt]
      rw [hk]
      by_cases h0 : k0 = k1
      · subst h0
        simp [mapGet]
      · simp [mapGet, h0, ih]

/-- Sorting the entries of a map does not change what is under a key. -/
lemma mapGet_sortKeys (l : RowMap) (h : (l.map Prod.fst).Nodup) (k : String) :
    mapGet (sortKeys l) k = mapGet l k := by
  induction l with
  | nil => rfl
  | cons hd t ih =>
    obtain ⟨k0, v0⟩ := hd
    simp only [List.map_cons, List.nodup_cons] at h
    simp only [sortKeys]
    by_cases hk : k0 = k
    · subst hk
      rw [mapGet_insertKey_self k0 v0 _ (by rw [mem_keys_sortKeys]; exact h.1)]
      simp [mapGet]
    · rw [mapGet_insertKey_ne k0 k v0 _ hk, ih h.2]
      simp [mapGet, hk]

lemma jsonMembers_get : ∀ (l : RowMap) (obj : JSONObject), jsonMembers l = .ok obj →
    ∀ (k : String) (v : Value), mapGet l k = some v →
      ∃ j, jsonValue v = .ok j ∧ jsonGet obj k = some j := by
  intro l
  induction l with
  | nil => intro obj _ k v hv; simp [mapGet] at hv
  | cons hd t ih =>
    obtain ⟨k0, v0⟩ := hd
    intro obj h k v hv
    simp only [jsonMembers] at h
    cases hj : jsonValue v0 with
    | error e => simp [hj] at h
    | ok j0 =>
      simp only [hj] at h
      cases hjs : jsonMembers t with
      | error e => simp [hjs] at h
      | ok js =>
        simp only [hjs] at h
        injection h with h
        subst h
        by_cases hk : k0 = k
        · simp only [mapGet, hk, if_true, Option.some.injEq] at hv
          subst hv
          exact ⟨j0, hj, by simp [jsonGet, hk]⟩
        · simp only [mapGet, hk, if_false] at hv
          obtain ⟨j, hjv, hget⟩ := ih js hjs k v hv
          exact ⟨j, hjv, by simp [jsonGet, hk, hget]⟩

/-- What `json.Marshal` writes under a key of a row map. -/
lemma jsonMarshal_get (cols : List String) (values : List Value) (obj : JSONObject)
    (h : jsonMarshal (rowToMap cols values) = .ok obj) (k : String) (v : Value)
    (hv : mapGet (rowToMap cols values) k = some v) :
    ∃ j, jsonValue v = .ok j ∧ jsonGet obj k = some j := by
  unfold jsonMarshal at h
  refine jsonMembers_get _ obj h k v ?_
  rw [mapGet_sortKeys _ (rowToMap_nodup cols values)]
  exact hv

/-! ## Init lemmas -/

lemma normalizeBatch_DSN (cfg : Config) : (normalizeBatch cfg).DSN = cfg.DSN := by
  unfold normalizeBatch; split <;> rfl

lemma normalizeBatch_Table (cfg : Config) : (normalizeBatch cfg).Table = cfg.Table := by
  unfold normalizeBatch; split <;> rfl

lemma normalizeBatch_Query (cfg : Config) : (normalizeBatch cfg).Query = cfg.Query := by
  unfold normalizeBatch; split <;> rfl

lemma normalizeBatch_PollInterval (cfg : Config) :
    (normalizeBatch cfg).PollInterval = cfg.PollInterval := by
  unfold normalizeBatch; split <;> rfl

lemma newTicker_ret (d : Int) (t : Ticker) (h : NewTicker d = .ret t) :
    0 < d ∧ t = { interval := d } := by
  unfold NewTicker at h
  by_cases hd : d ≤ 0
  · rw [if_pos hd] at h; cases h
  · rw [if_neg hd] at h
    injection h with h
    exact ⟨by omega, h.symm⟩

/-- What a call of `Init` that returns no error has found and done. -/
lemma init_ok_inv (lib : Library) (s : MySQLSourceSPI) (config : Decoded) (r : InitResult)
    (h : Init lib s config = .ret r) (hok : r.err = none) :
    config.err = none ∧
    (applyDoc config.stored s.cfg).DSN ≠ "" ∧
    lib.openErr (applyDoc config.stored s.cfg).DSN = none ∧
    lib.pingErr (applyDoc config.stored s.cfg).DSN = none ∧
    0 < pollInterval lib (normalizeBatch (applyDoc config.stored s.cfg)) ∧
    r.state = { db := some { dsn := (applyDoc config.stored s.cfg).DSN },
                cfg := normalizeBatch (applyDoc config.stored s.cfg),
                offset := s.offset,
                ticker := some (Ticker.mk
                  (pollInterval lib (normalizeBatch (applyDoc config.stored s.cfg)))) } ∧
    r.effects = [Effect.sqlOpen (applyDoc config.stored s.cfg).DSN, Effect.pingContext,
                 Effect.newTicker
                   (pollInterval lib (normalizeBatch (applyDoc config.stored s.cfg)))] := by
  unfold Init at h
  simp only [normalizeBatch_DSN] at h
  cases he : config.err with
  | some e =>
    simp only [he] at h
    injection h with h
    subst h
    simp at hok
  | none =>
    simp only [he] at h
    by_cases hd : (applyDoc config.stored s.cfg).DSN = ""
    · rw [if_pos hd] at h
      injection h with h
      subst h
      simp at hok
    · rw [if_neg hd] at h
      cases ho : lib.openErr (applyDoc config.stored s.cfg).DSN with
      | some e =>
        simp only [ho] at h
        injection h with h
        subst h
        simp at hok
      | none =>
        simp only [ho] at h
        cases hp : lib.pingErr (applyDoc config.stored s.cfg).DSN with
        | some e =>
          simp only [hp] at h
          injection h with h
          subst h
          simp at hok
        | none =>
          simp only [hp] at h
          cases hn : NewTicker (pollInterval lib (normalizeBatch (applyDoc config.stored s.cfg))) with
          | panicked msg =>
            simp only [hn] at h
            cases h
          | ret t =>
            simp only [hn] at h
            injection h with h
            subst h
            obtain ⟨hpos, ht⟩ := newTicker_ret _ _ hn
            subst ht
            exact ⟨rfl, hd, rfl, rfl, hpos, rfl, rfl⟩

/-- What `Init` returns when nothing fails and the interval is positive. -/
lemma init_succeeds (lib : Library) (s : MySQLSourceSPI) (config : Decoded)
    (he : config.err = none)
    (hd : (applyDoc config.stored s.cfg).DSN ≠ "")
    (ho : lib.openErr (applyDoc config.stored s.cfg).DSN = none)
    (hp : lib.pingErr (applyDoc config.stored s.cfg).DSN = none)
    (hpos : 0 < pollInterval lib (normalizeBatch (applyDoc config.stored s.cfg))) :
    Init lib s config = .ret
      { state := { db := some { dsn := (applyDoc config.stored s.cfg).DSN },
                   cfg := normalizeBatch (applyDoc config.stored s.cfg),
                   offset := s.offset,
                   ticker := some (Ticker.mk
                     (pollInterval lib (normalizeBatch (applyDoc config.stored s.cfg)))) },
        err := none,
        effects := [Effect.sqlOpen (applyDoc config.stored s.cfg).DSN, Effect.pingContext,
                    Effect.newTicker
                      (pollInterval lib (normalizeBatch (applyDoc config.stored s.cfg)))] } := by
  have hn : NewTicker (pollInterval lib (normalizeBatch (applyDoc config.stored s.cfg)))
      = .ret { interval := pollInterval lib (normalizeBatch (applyDoc config.stored s.cfg)) } := by
    unfold NewTicker
    rw [if_neg (by omega)]
  unfold Init
  simp only [normalizeBatch_DSN, he, if_neg hd, ho, hp, hn]

lemma pollInterval_eq_spec (lib : Library) (config : Decoded) :
    pollInterval lib (normalizeBatch (applyDoc config.stored NewMySQLSource.cfg))
      = specPollInterval lib.parseDuration config.stored.poll_interval := by
  unfold pollInterval specPollInterval
  rw [normalizeBatch_PollInterval]
  unfold applyDoc NewMySQLSource
  cases config.stored.poll_interval with
  | none => simp [Second]
  | some text =>
    simp only [Option.getD_some]
    by_cases ht : text = ""
    · simp [ht, Second]
    · simp only [ht, if_false]
      cases lib.parseDuration text <;> simp [Second]

/-! ## ReadBatch: one call -/

/-- C4, counterexample: the context is cancelled and a tick is pending when
ReadBatch reaches its select, and the runtime takes the tick case.  ReadBatch
then calls QueryContext with the paginated query and returns the error
"query failed" around the driver's "context canceled", which is not io.EOF. -/
theorem readBatch_cancelled_tick_pending :
    ∃ r, ReadBatch exMarshal exCanceledQuery exReady (Wait.both Select.ticked) = .ret r ∧
      r.err = some (Error.wrap "query failed" (Error.lib "context canceled")) ∧
      r.err ≠ some Error.EOF ∧
      r.effects = [Effect.queryContext "SELECT * FROM t LIMIT 2 OFFSET 0"] :=
  ⟨_, rfl, rfl, by decide, by decide⟩

/-- C4, amended: in the Ready state, a call whose select finds the context
cancelled and no tick pending returns io.EOF with the empty batch, makes no
external call (no query is executed) and leaves the connector, its offset
included, as it was. -/
theorem readBatch_cancelled {P : Type} (marshal : RowMap → Except Error P)
    (query : String → Except Error Rows) (s : MySQLSourceSPI) (h : Ready s) :
    ReadBatch marshal query s Wait.done
      = .ret { state := s, batch := {}, err := some Error.EOF, effects := [] } := by
  obtain ⟨_, ht⟩ := h
  obtain ⟨t, ht⟩ := Option.isSome_iff_exists.mp ht
  simp [ReadBatch, ht, selectCase]

theorem readBatch_cancelled_witness :
    Ready exReady ∧ ReadBatch exMarshal exQuery exReady Wait.done
      = .ret { state := exReady, batch := {}, err := some Error.EOF, effects := [] } :=
  ⟨by decide, readBatch_cancelled exMarshal exQuery exReady (by decide)⟩

lemma rowsToRecords_length {P : Type} (marshal : RowMap → Except Error P) (rows : Rows)
    (table : String) (h : (rowsToRecords marshal rows table).2 = none) :
    (rowsToRecords marshal rows table).1.length = rows.scans.length := by
  unfold rowsToRecords at h ⊢
  cases hc : rows.columns with
  | error e => simp [hc] at h
  | ok cols =>
    simp only [hc] at h ⊢
    simpa using convertLoop_length marshal table cols rows.err rows.scans [] h

/-- C2: in the Ready state with offset o, a call that takes its tick and whose
query and conversion succeed on a result set of N > 0 rows returns no error
and a batch of exactly N records whose context maps "table" to the configured
table name; the offset becomes o + N and nothing else of the connector changes,
so the next call that takes its tick sends the resolved query followed by
" LIMIT b OFFSET o+N". -/
theorem readBatch_advances {P : Type} (marshal : RowMap → Except Error P)
    (query : String → Except Error Rows) (s : MySQLSourceSPI) (w : Wait) (rows : Rows)
    (N : Nat) (h : Ready s) (hw : selectCase w = Select.ticked)
    (hq : query (paginatedQuery s.cfg s.offset) = .ok rows)
    (hconv : (rowsToRecords marshal rows s.cfg.Table).2 = none)
    (hN : rows.scans.length = N) (hpos : 0 < N) :
    ∃ r, ReadBatch marshal query s w = .ret r ∧
      r.err = none ∧
      r.batch.Records = (rowsToRecords marshal rows s.cfg.Table).1 ∧
      r.batch.Records.length = N ∧
      r.batch.Context = [("table", s.cfg.Table)] ∧
      r.state = { s with offset := s.offset + N } ∧
      NextQueryIs r.state
        (resolveQuery s.cfg ++ " LIMIT " ++ toString s.cfg.BatchSize
            ++ " OFFSET " ++ toString (s.offset + N)) := by
  have hlen := rowsToRecords_length marshal rows s.cfg.Table hconv
  rw [hN] at hlen
  rcases hrr : rowsToRecords marshal rows s.cfg.Table with ⟨records, e⟩
  rw [hrr] at hconv hlen
  simp only at hconv hlen
  subst hconv
  have hne : records.length ≠ 0 := by omega
  rw [readBatch_records marshal query s w hw h rows records hq hrr hne]
  refine ⟨_, rfl, rfl, rfl, hlen, rfl, ?_, ?_⟩
  · simp only [hlen]
  · have hnext := nextQueryIs_paginated { s with offset := s.offset + records.length }
      (ready_withOffset s h _)
    simpa only [hlen, paginatedQuery] using hnext

theorem readBatch_advances_witness :
    Ready exReady ∧ selectCase Wait.tick = Select.ticked ∧ 0 < 2 ∧
    ∃ r, ReadBatch exMarshal exQuery exReady Wait.tick = .ret r ∧
      r.err = none ∧
      r.batch.Records = (rowsToRecords exMarshal (window exCols exTable 2 0) exReady.cfg.Table).1 ∧
      r.batch.Records.length = 2 ∧
      r.batch.Context = [("table", exReady.cfg.Table)] ∧
      r.state = { exReady with offset := exReady.offset + (2 : Nat) } ∧
      NextQueryIs r.state
        (resolveQuery exReady.cfg ++ " LIMIT " ++ toString exReady.cfg.BatchSize
            ++ " OFFSET " ++ toString (exReady.offset + (2 : Nat))) :=
  ⟨by decide, rfl, by decide,
    readBatch_advances exMarshal exQuery exReady Wait.tick (window exCols exTable 2 0) 2
      (by decide) rfl rfl rfl rfl (by decide)⟩

/-- C3: in the Ready state, at any offset, a call that takes its tick and whose
query succeeds with zero rows returns the empty batch with no error (so not
io.EOF), and sets the offset to 0, so the next call that takes its tick sends a
query that ends in " OFFSET 0". -/
theorem readBatch_zero_rows {P : Type} (marshal : RowMap → Except Error P)
    (query : String → Except Error Rows) (s : MySQLSourceSPI) (w : Wait) (rows : Rows)
    (cols : List String) (h : Ready s) (hw : selectCase w = Select.ticked)
    (hq : query (paginatedQuery s.cfg s.offset) = .ok rows)
    (hcols : rows.columns = .ok cols) (hscans : rows.scans = []) (herr : rows.err = none) :
    ∃ r, ReadBatch marshal query s w = .ret r ∧
      r.batch = {} ∧ r.err = none ∧ r.err ≠ some Error.EOF ∧
      r.state = { s with offset := 0 } ∧
      NextQueryIs r.state
        (resolveQuery s.cfg ++ " LIMIT " ++ toString s.cfg.BatchSize ++ " OFFSET " ++ "0") := by
  have hrr : rowsToRecords marshal rows s.cfg.Table = ([], none) := by
    simp [rowsToRecords, hcols, hscans, herr, convertLoop]
  rw [readBatch_empty marshal query s w hw h rows hq hrr]
  have hzero : toString (0 : Int) = "0" := by decide
  refine ⟨_, rfl, rfl, rfl, ?_, rfl, ?_⟩
  · simp
  · have hnext := nextQueryIs_paginated { s with offset := 0 } (ready_withOffset s h _)
    simpa only [paginatedQuery, hzero] using hnext

theorem readBatch_zero_rows_witness :
    Ready exDone ∧ selectCase Wait.tick = Select.ticked ∧
    ∃ r, ReadBatch exMarshal exQuery exDone Wait.tick = .ret r ∧
      r.batch = {} ∧ r.err = none ∧ r.err ≠ some Error.EOF ∧
      r.state = { exDone with offset := 0 } ∧
      NextQueryIs r.state
        (resolveQuery exDone.cfg ++ " LIMIT " ++ toString exDone.cfg.BatchSize
          ++ " OFFSET " ++ "0") :=
  ⟨by decide, rfl,
    readBatch_zero_rows exMarshal exQuery exDone Wait.tick (window exCols exTable 2 5) exCols
      (by decide) rfl rfl rfl rfl rfl⟩

/-- C5: in the Ready state, a call that takes its tick and in which the query,
the column list, the scan of some row, the iteration of the result set or the
serialization of some row fails returns a non-nil error with the empty batch
and leaves the connector, its offset included, as it was, so the next call
that takes its tick sends the same paginated query. -/
theorem readBatch_failure_atomic {P : Type} (marshal : RowMap → Except Error P)
    (query : String → Except Error Rows) (s : MySQLSourceSPI) (w : Wait) (h : Ready s)
    (hw : selectCase w = Select.ticked)
    (hfail : (∃ e, query (paginatedQuery s.cfg s.offset) = .error e) ∨
      (∃ rows, query (paginatedQuery s.cfg s.offset) = .ok rows ∧
        ((∃ e, rows.columns = .error e) ∨
         (∃ e, Except.error e ∈ rows.scans) ∨
         (∃ e, rows.err = some e) ∨
         (∃ cols values e, rows.columns = .ok cols ∧ Except.ok values ∈ rows.scans ∧
            marshal (rowToMap cols values) = .error e)))) :
    ∃ r, ReadBatch marshal query s w = .ret r ∧
      r.err ≠ none ∧ r.batch = {} ∧ r.state = s ∧
      NextQueryIs r.state (paginatedQuery s.cfg s.offset) := by
  rcases hfail with ⟨e, he⟩ | ⟨rows, hq, hrows⟩
  · rw [readBatch_query_error marshal query s w hw h e he]
    exact ⟨_, rfl, by simp, rfl, rfl, nextQueryIs_paginated s h⟩
  · have hsome : ∃ e, (rowsToRecords marshal rows s.cfg.Table).2 = some e := by
      unfold rowsToRecords
      cases hc : rows.columns with
      | error e0 => exact ⟨e0, rfl⟩
      | ok cols0 =>
        simp only
        apply convertLoop_fails
        rcases hrows with ⟨e, he⟩ | h1 | h2 | ⟨cols, values, e, hcols, hv, hm⟩
        · rw [hc] at he; cases he
        · exact Or.inl h1
        · exact Or.inr (Or.inl h2)
        · rw [hc] at hcols
          injection hcols with hcc
          subst hcc
          exact Or.inr (Or.inr ⟨values, e, hv, hm⟩)
    obtain ⟨e, he⟩ := hsome
    rcases hrr : rowsToRecords marshal rows s.cfg.Table with ⟨records, e1⟩
    rw [hrr] at he
    simp only at he
    subst he
    rw [readBatch_convert_error marshal query s w hw h rows records e hq hrr]
    exact ⟨_, rfl, by simp, rfl, rfl, nextQueryIs_paginated s h⟩

theorem readBatch_failure_atomic_witness :
    Ready exReady ∧ selectCase Wait.tick = Select.ticked ∧
    ∃ r, ReadBatch exMarshal exDownQuery exReady Wait.tick = .ret r ∧
      r.err ≠ none ∧ r.batch = {} ∧ r.state = exReady ∧
      NextQueryIs r.state (paginatedQuery exReady.cfg exReady.offset) :=
  ⟨by decide, rfl,
    readBatch_failure_atomic exMarshal exDownQuery exReady Wait.tick (by decide) rfl
      (Or.inl ⟨Error.lib "invalid connection", rfl⟩)⟩

/-! ## Init -/

/-- C7: for every configuration a fresh connector's Init accepts (it returns
with no error), the effective batch size is 100 when batch_size is absent, zero
or negative and the given value when positive, and the ticker is started with
five seconds when poll_interval is absent, empty or unparsable and with the
parsed duration otherwise. -/
theorem init_defaults (lib : Library) (config : Decoded) (r : InitResult)
    (h : Init lib NewMySQLSource config = .ret r) (hok : r.err = none) :
    r.state.cfg.BatchSize = specBatchSize config.stored.batch_size ∧
    r.state.ticker
      = some { interval := specPollInterval lib.parseDuration config.stored.poll_interval } ∧
    Effect.newTicker (specPollInterval lib.parseDuration config.stored.poll_interval)
      ∈ r.effects := by
  obtain ⟨_, _, _, _, _, hst, heff⟩ := init_ok_inv lib NewMySQLSource config r h hok
  have hb : (normalizeBatch (applyDoc config.stored NewMySQLSource.cfg)).BatchSize
      = specBatchSize config.stored.batch_size := by
    unfold normalizeBatch specBatchSize applyDoc NewMySQLSource
    cases config.stored.batch_size with
    | none => simp
    | some n =>
      simp only [Option.getD_some]
      by_cases hn : 0 < n
      · have : ¬ n ≤ 0 := by omega
        simp [hn, this]
      · have : n ≤ 0 := by omega
        simp [hn, this]
  have hp := pollInterval_eq_spec lib config
  rw [hst, heff]
  refine ⟨hb, ?_, ?_⟩
  · simp only [hp]
  · simp only [hp, List.mem_cons, true_or, or_true]

theorem init_defaults_witness :
    Init exLib NewMySQLSource exDoc = .ret exInitResult ∧
    exInitResult.err = none ∧
    exInitResult.state.cfg.BatchSize = specBatchSize exDoc.stored.batch_size ∧
    exInitResult.state.ticker
      = some { interval := specPollInterval exLib.parseDuration exDoc.stored.poll_interval } ∧
    Effect.newTicker (specPollInterval exLib.parseDuration exDoc.stored.poll_interval)
      ∈ exInitResult.effects :=
  ⟨by decide, rfl, init_defaults exLib exDoc exInitResult (by decide) rfl⟩

/-- C8: for every well-formed configuration document whose connection string is
absent or empty, Init on a fresh connector returns the configuration error
"dsn is required" and makes no external call (no open, no ping, no ticker); the
connection handle and the ticker stay unset. -/
theorem init_requires_dsn (lib : Library) (config : Decoded)
    (hwf : config.err = none)
    (hdsn : config.stored.dsn = none ∨ config.stored.dsn = some "") :
    ∃ r, Init lib NewMySQLSource config = .ret r ∧
      r.err = some (Error.errorf "dsn is required") ∧
      r.effects = [] ∧ r.state.db = none ∧ r.state.ticker = none := by
  have hd : (applyDoc config.stored NewMySQLSource.cfg).DSN = "" := by
    unfold applyDoc NewMySQLSource
    rcases hdsn with h | h <;> simp [h]
  unfold Init
  simp only [hwf, hd, if_true]
  exact ⟨_, rfl, rfl, rfl, rfl, rfl⟩

theorem init_requires_dsn_witness :
    exNoDsn.err = none ∧ (exNoDsn.stored.dsn = none ∨ exNoDsn.stored.dsn = some "") ∧
    ∃ r, Init exLib NewMySQLSource exNoDsn = .ret r ∧
      r.err = some (Error.errorf "dsn is required") ∧
      r.effects = [] ∧ r.state.db = none ∧ r.state.ticker = none :=
  ⟨rfl, Or.inl rfl, init_requires_dsn exLib exNoDsn rfl (Or.inl rfl)⟩

/-- C9, the code at the failing input: a well-formed configuration with a
connection string and neither a table name nor a custom query is not rejected.
Init returns no error and leaves the connector Ready with both fields empty,
the query text ReadBatch resolves is "SELECT * FROM " with no table name, and
the next call that takes its tick sends "SELECT * FROM  LIMIT 100 OFFSET 0". -/
theorem init_accepts_no_table_no_query :
    exBare.err = none ∧ exBare.stored.table = none ∧ exBare.stored.query = none ∧
    ∃ r, Init exLib NewMySQLSource exBare = .ret r ∧ r.err = none ∧ Ready r.state ∧
      r.state.cfg.Table = "" ∧ r.state.cfg.Query = "" ∧
      resolveQuery r.state.cfg = "SELECT * FROM " ∧
      NextQueryIs r.state "SELECT * FROM  LIMIT 100 OFFSET 0" :=
  ⟨rfl, rfl, rfl, exBareState, by decide, rfl, by decide, by decide, by decide, by decide,
    nextQueryIs_paginated exBareState.state (by decide)⟩

/-- C10, the code at the failing inputs: with a reachable database and the poll
interval "0s", and likewise "-1s", the duration parses, Init hands an interval
that is not positive to time.NewTicker, and the call panics. -/
theorem init_nonpositive_interval_panics :
    exLib.parseDuration "0s" = some 0 ∧
    Init exLib NewMySQLSource exZeroInterval
      = .panicked "non-positive interval for NewTicker" ∧
    exLib.parseDuration "-1s" = some (-1000000000) ∧
    Init exLib NewMySQLSource exNegInterval
      = .panicked "non-positive interval for NewTicker" :=
  ⟨by decide, by decide, by decide, by decide⟩

/-! ## Row conversion -/

/-- C6, counterexample: with json.Marshal as the encoder, (1) a row of two
columns both named "a", the first holding the bytes of "x" and the second the
integer 1, converts without error to one record whose payload is the object
with the single member "a": 1, so the binary column is not encoded; (2) a row
whose binary column "c" holds the bytes FF FE 41 converts to a record whose
payload holds under "c" the text EF BF BD EF BF BD 41 (two U+FFFD and "A"),
which is not the binary content. -/
theorem bytes_column_not_encoded :
    rowsToRecords jsonMarshal exDupRows "t" = ([mkRecord "t" [("a", JSONValue.int 1)]], none) ∧
    rowsToRecords jsonMarshal exBinRows "t"
      = ([mkRecord "t" [("c", JSONValue.str [0xEF, 0xBF, 0xBD, 0xEF, 0xBF, 0xBD, 0x41])]], none) ∧
    jsonGet [("c", JSONValue.str [0xEF, 0xBF, 0xBD, 0xEF, 0xBF, 0xBD, 0x41])] "c"
      ≠ some (JSONValue.str [0xFF, 0xFE, 0x41]) := by
  refine ⟨by decide, by decide, by decide⟩

/-- C6, amended: when rowsToRecords, with json.Marshal as the encoder, succeeds,
then for every row of the result set and every column of it whose scanned value
is a byte sequence that is valid UTF-8 and whose name is not the name of a later
column, the record made for the row (same position, metadata source and table)
has as payload the JSON object written for the row map, and the member of that
object under the column's name is the string whose text is exactly the bytes of
the binary value. -/
theorem rowsToRecords_bytes_as_text (rows : Rows) (table : String) (cols : List String)
    (records : List (Record JSONObject)) (k i : Nat) (values : List Value) (col : String)
    (b : Bytes)
    (hcols : rows.columns = .ok cols)
    (hconv : rowsToRecords jsonMarshal rows table = (records, none))
    (hrow : rows.scans[k]? = some (.ok values))
    (hcol : cols[i]? = some col)
    (hval : values[i]? = some (Value.bytes b))
    (hlast : ∀ j, i < j → cols[j]? ≠ some col)
    (hutf8 : validUTF8 b = true) :
    ∃ r, records[k]? = some r ∧
      r.Metadata = [("source", "mysql"), ("table", table)] ∧
      jsonMarshal (rowToMap cols values) = .ok r.Payload ∧
      jsonGet r.Payload col = some (JSONValue.str b) := by
  unfold rowsToRecords at hconv
  simp only [hcols] at hconv
  obtain ⟨r, hr, hp, hmeta⟩ :=
    convertLoop_record jsonMarshal table cols rows.err rows.scans [] records hconv k values hrow
  have hmap : mapGet (rowToMap cols values) col = some (Value.str b) := by
    unfold rowToMap
    rw [fillRowMap_last values col cols 0 [] i hcol hlast]
    have hget : values.getD (0 + i) Value.null = Value.bytes b := by
      simp [List.getD, hval]
    rw [hget]
    rfl
  obtain ⟨j, hj, hget⟩ := jsonMarshal_get cols values r.Payload hp col _ hmap
  simp only [jsonValue, toValidUTF8_valid b hutf8, Except.ok.injEq] at hj
  subst hj
  exact ⟨r, by simpa using hr, hmeta, hp, hget⟩

theorem rowsToRecords_bytes_as_text_witness :
    validUTF8 [0x68, 0xC3, 0xA9] = true ∧
    rowsToRecords jsonMarshal exBlobRows "t"
      = ([mkRecord "t" [("blob", JSONValue.str [0x68, 0xC3, 0xA9]), ("n", JSONValue.int 7)]],
         none) ∧
    ∃ r, ([mkRecord "t" [("blob", JSONValue.str [0x68, 0xC3, 0xA9]), ("n", JSONValue.int 7)]] :
        List (Record JSONObject))[0]? = some r ∧
      r.Metadata = [("source", "mysql"), ("table", "t")] ∧
      jsonMarshal (rowToMap ["n", "blob"] [Value.int 7, Value.bytes [0x68, 0xC3, 0xA9]])
        = .ok r.Payload ∧
      jsonGet r.Payload "blob" = some (JSONValue.str [0x68, 0xC3, 0xA9]) :=
  ⟨by decide, by decide,
    rowsToRecords_bytes_as_text exBlobRows "t" ["n", "blob"]
      [mkRecord "t" [("blob", JSONValue.str [0x68, 0xC3, 0xA9]), ("n", JSONValue.int 7)]] 0 1
      [Value.int 7, Value.bytes [0x68, 0xC3, 0xA9]] "blob" [0x68, 0xC3, 0xA9]
      rfl (by decide) rfl rfl rfl
      (by
        intro j hj
        match j, hj with
        | (n + 2), _ => simp)
      (by decide)⟩

/-! ## Full scan -/

/-- C1: for an unchanging result set of n rows that the store pages by LIMIT and
OFFSET and whose rows all serialize, and a batch size b > 0, the
ceil(n/b) + 1 successive calls of ReadBatch from offset 0, each taking its
tick, all return without error; the k-th of the first ceil(n/b) returns the
non-empty window of rows [(k-1)b, kb) in result order and leaves the offset at
min(kb, n); these batches concatenated are the records of the n rows in order;
and the last call returns the empty batch and resets the offset to 0. -/
theorem fullScan_pagination {P : Type} (marshal : RowMap → Except Error P)
    (query : String → Except Error Rows) (s : MySQLSourceSPI) (cols : List String)
    (enc : List Value → P) (R : List (List Value)) (b : Nat) (ws : List Wait)
    (hready : Ready s) (hoff : s.offset = 0) (hb : 0 < b) (hbs : s.cfg.BatchSize = (b : Int))
    (hcalls : ws.length = (R.length + b - 1) / b + 1)
    (hticks : ∀ w ∈ ws, selectCase w = Select.ticked)
    (hquery : ∀ o : Nat, o ≤ R.length →
      query (paginatedQuery s.cfg (o : Int)) = .ok (window cols R b o))
    (hm : ∀ row ∈ R, marshal (rowToMap cols row) = .ok (enc row)) :
    ∃ rs, pollN marshal query ws s = .ret rs ∧
      rs.length = (R.length + b - 1) / b + 1 ∧
      (∀ k, k < (R.length + b - 1) / b → ∃ r, rs[k]? = some r ∧ r.err = none ∧
        r.batch.Records
          = ((R.drop (k * b)).take b).map (fun row => mkRecord s.cfg.Table (enc row)) ∧
        r.batch.Records ≠ [] ∧
        r.state.offset = ((min ((k + 1) * b) R.length : Nat) : Int)) ∧
      (rs.take ((R.length + b - 1) / b)).flatMap (fun r => r.batch.Records)
        = R.map (fun row => mkRecord s.cfg.Table (enc row)) ∧
      (∃ r, rs[(R.length + b - 1) / b]? = some r ∧ r.err = none ∧ r.batch.Records = [] ∧
        r.state.offset = 0) := by
  have hlt : ∀ i, i < (R.length + b - 1) / b → (0 + i) * b < R.length := by
    intro i hi
    have h1 : (i + 1) * b ≤ R.length + b - 1 := (Nat.le_div_iff_mul_le hb).mp hi
    rw [Nat.succ_mul] at h1
    rw [Nat.zero_add]
    omega
  have hle : R.length ≤ (0 + (R.length + b - 1) / b) * b := by
    rw [Nat.zero_add]
    by_contra hcon
    have h1 : ((R.length + b - 1) / b + 1) * b ≤ R.length + b - 1 := by
      rw [Nat.succ_mul]
      omega
    have h2 := (Nat.le_div_iff_mul_le hb).mpr h1
    omega
  have hs : ({ s with offset := ((min (0 * b) R.length : Nat) : Int) } : MySQLSourceSPI) = s := by
    have h0 : ((min (0 * b) R.length : Nat) : Int) = s.offset := by
      rw [hoff]; simp
    rw [h0]
  obtain ⟨rs, hrs, hlen, hbatches, hcat, hlast⟩ :=
    pollN_scan marshal query s cols enc R b hready hb hquery hm _ 0 ws hcalls hticks hlt hle
  rw [hs] at hrs
  refine ⟨rs, hrs, hlen, ?_, ?_, hlast⟩
  · intro k hk
    obtain ⟨r, hr, herr, hrec, hne, hoffk⟩ := hbatches k hk
    refine ⟨r, hr, herr, ?_, hne, ?_⟩
    · rw [hrec, Nat.zero_add]
    · rw [hoffk, Nat.zero_add]
  · rw [hcat, Nat.zero_mul, List.drop_zero]

theorem fullScan_pagination_witness :
    (Ready exReady ∧ exReady.offset = 0 ∧ 0 < 2 ∧ exReady.cfg.BatchSize = ((2 : Nat) : Int) ∧
      exWaits.length = (exTable.length + 2 - 1) / 2 + 1 ∧
      ∀ w ∈ exWaits, selectCase w = Select.ticked) ∧
    scanSummary (pollN exMarshal exQuery exWaits exReady)
      = some [(2, 2, false), (2, 4, false), (1, 5, false), (0, 0, false)] ∧
    ∃ rs, pollN exMarshal exQuery exWaits exReady = .ret rs ∧
      rs.length = (exTable.length + 2 - 1) / 2 + 1 ∧
      (∀ k, k < (exTable.length + 2 - 1) / 2 → ∃ r, rs[k]? = some r ∧ r.err = none ∧
        r.batch.Records
          = ((exTable.drop (k * 2)).take 2).map
              (fun row => mkRecord exReady.cfg.Table (exEnc row)) ∧
        r.batch.Records ≠ [] ∧
        r.state.offset = ((min ((k + 1) * 2) exTable.length : Nat) : Int)) ∧
      (rs.take ((exTable.length + 2 - 1) / 2)).flatMap (fun r => r.batch.Records)
        = exTable.map (fun row => mkRecord exReady.cfg.Table (exEnc row)) ∧
      (∃ r, rs[(exTable.length + 2 - 1) / 2]? = some r ∧ r.err = none ∧
        r.batch.Records = [] ∧ r.state.offset = 0) :=
  ⟨⟨by decide, rfl, by decide, rfl, rfl, by decide⟩, by decide,
    fullScan_pagination exMarshal exQuery exReady exCols exEnc exTable 2 exWaits
      (by decide) rfl (by decide) rfl rfl (by decide)
      (by
        intro o ho
        have ho5 : o ≤ 5 := ho
        interval_cases o <;> rfl)
      (by intro row _; rfl)⟩

end MySQLSource
